import Mathlib

/-!
# k-means (`src/k-means.h`): embedding of `alg::KMeans<T, A>`

The class template `KMeans<T, A>` is embedded for signed two's-complement
integer types: `KMeans bitsT bitsA` is the instantiation whose storage type `T`
has `bitsT` bits and whose accumulator type `A` has `bitsA` bits
(`KMeans 32 64` is `KMeans<int32_t, int64_t>`).  `int` is a 32-bit
two's-complement integer and the counters are `uint32_t`.  Machine arithmetic
is written over `Int`/`Nat` with explicit reductions (`wrap`, `wrap32`,
`% 4294967296`).

* Raw buffers (`const T* data`, `T** m_means`, `A** next_means`,
  `uint32_t* counts`, `int* Label`) are total functions from offsets to values;
  the code never checks an offset, and neither does the model.
* A `double` value is a rational number or NaN (`none`): NaN is what `sqrt`
  returns for a negative argument, it propagates through the arithmetic, and
  every comparison with it is false.  Rounding and the infinities are outside
  the model.  The library function `sqrt` of `<math.h>` on arguments that are
  not negative, the macro `RAND_MAX` and the values successively returned by
  `rand()` are parameters.
* `clipT` is polymorphic in the numeric type, as the template is, so that it
  can also be read at a floating-point storage type.
-/

namespace alg

/-! ## Machine arithmetic -/

/-- Reduction of an integer to the signed 32-bit range (`int`). -/
def wrap32 (x : Int) : Int := (x + 2147483648) % 4294967296 - 2147483648

/-- Half the number of values of a signed integer type of `bits` bits. -/
def half (bits : Nat) : Int := 2 ^ (bits - 1)

/-- Reduction of an integer to the range of a signed type of `bits` bits. -/
def wrap (bits : Nat) (x : Int) : Int := (x + half bits) % (2 * half bits) - half bits

/-- Value of `numeric_limits<T>::min()` for a signed type of `bits` bits. -/
def minOf (bits : Nat) : Int := -half bits

/-- Value of `numeric_limits<T>::max()` for a signed type of `bits` bits. -/
def maxOf (bits : Nat) : Int := half bits - 1

/-- Value of `numeric_limits<float>::min()`, the smallest positive normal
`float`. -/
def FLT_MIN : ℚ := 1 / 2 ^ 126

/-- Value of `numeric_limits<float>::max()`. -/
def FLT_MAX : ℚ := (2 ^ 24 - 1) * 2 ^ 104

/-- Value of the literal `0.001`: the `double` nearest to one thousandth. -/
def endErrorDefault : ℚ := 1152921504606847 / 1152921504606846976

/-! ## Values of type `double` -/

/-- Sum `a + b` of two `double` values: NaN when an operand is NaN. -/
def addD : Option ℚ → Option ℚ → Option ℚ
  | some x, some y => some (x + y)
  | _, _ => none

/-- Comparison `a < b` of two `double` values: false when an operand is NaN. -/
def ltD : Option ℚ → Option ℚ → Bool
  | some x, some y => decide (x < y)
  | _, _ => false

/-- Quotient `a / n` of a `double` by an `int` converted to `double`.  NaN
divided by anything is NaN, and so is `0.0 / 0`, the one division by zero that
`Cluster` can make (`currCost /= size` with no point). -/
def divD (a : Option ℚ) (n : Int) : Option ℚ :=
  if n = 0 then none else a.map (fun x => x / (n : ℚ))

/-- The test `fabs(lastCost - currCost) < m_endError * lastCost`, with
`m_endError = e`: false when a cost is NaN. -/
def stableTest (e : ℚ) : Option ℚ → Option ℚ → Bool
  | some lastCost, some currCost => decide (|lastCost - currCost| < e * lastCost)
  | _, _ => false

/-- Sum of a list of `double` values accumulated from `0` in list order, as
`currCost += ...` does. -/
def sumD (l : List (Option ℚ)) : Option ℚ := l.foldl addD (some 0)

/-! ## The engine -/

/-- Enumerator `InitRandom` of `enum InitMode`. -/
def InitRandom : Int := 0

/-- Enumerator `InitManual` of `enum InitMode`. -/
def InitManual : Int := 1

/-- Enumerator `InitUniform` of `enum InitMode`. -/
def InitUniform : Int := 2

/-- Private members of `KMeans<T, A>`, for signed integer types `T` of `bitsT`
bits and `A` of `bitsA` bits.  `m_means i d` is `m_means[i][d]`. -/
structure KMeans (bitsT bitsA : Nat) where
  m_dimNum : Nat
  m_clusterNum : Nat
  m_means : Int → Nat → Int
  m_initMode : Int
  m_maxIterNum : Int
  m_endError : ℚ

variable {bitsT bitsA : Nat}

/-- Accessor `T* GetMean(int i)`: the row `m_means[i]`. -/
def KMeans.GetMean (km : KMeans bitsT bitsA) (i : Int) : Nat → Int := km.m_means i

/-- Body of `for (j < m_dimNum) x[j] = data[p*m_dimNum+j]`: the scratch vector
holding point `p`, the offset being computed in `int`. -/
def KMeans.sample (km : KMeans bitsT bitsA) (data : Int → Int) (p : Int) : Nat → Int :=
  fun j => data (wrap32 (wrap32 (p * (km.m_dimNum : Int)) + (j : Int)))

/-- Copy of `memcpy(m_means[i], sample, sizeof(T) * m_dimNum)`: components
`0 .. m_dimNum-1` of row `i` are overwritten, everything else is kept. -/
def KMeans.copyRow (km : KMeans bitsT bitsA) (means : Int → Nat → Int) (i : Int)
    (src : Nat → Int) : Int → Nat → Int :=
  fun c d => if c = i ∧ d < km.m_dimNum then src d else means c d

/-- The expression `inteval * i + (inteval - 1) * rand() / RAND_MAX` of the
`InitRandom` branch, evaluated in `int`; `r` is the value returned by `rand()`. -/
def selectRandom (RAND_MAX : Int) (inteval i r : Int) : Int :=
  wrap32 (wrap32 (inteval * i) + Int.tdiv (wrap32 (wrap32 (inteval - 1) * r)) RAND_MAX)

/-- The expression `i * size / m_clusterNum` of the uniform branch, in `int`. -/
def selectUniform (size clusterNum i : Int) : Int :=
  Int.tdiv (wrap32 (i * size)) clusterNum

/-- Member `void Init(const T* data, int N)`.  `rand i` is the value returned by
the call of `rand()` made for cluster `i`. -/
def KMeans.Init (RAND_MAX : Int) (rand : Nat → Int) (km : KMeans bitsT bitsA)
    (data : Int → Int) (N : Int) : KMeans bitsT bitsA :=
  let size := N
  if km.m_initMode = InitManual then km
  else if km.m_initMode = InitRandom then
    let inteval := Int.tdiv size (km.m_clusterNum : Int)
    (List.range km.m_clusterNum).foldl
      (fun (st : KMeans bitsT bitsA) (i : Nat) =>
        let select := selectRandom RAND_MAX inteval (i : Int) (rand i)
        { st with m_means := st.copyRow st.m_means (i : Int) (st.sample data select) })
      km
  else
    (List.range km.m_clusterNum).foldl
      (fun (st : KMeans bitsT bitsA) (i : Nat) =>
        let select := selectUniform size (km.m_clusterNum : Int) (i : Int)
        { st with m_means := st.copyRow st.m_means (i : Int) (st.sample data select) })
      km

/-- Member `T clipT(A a)`, polymorphic in the numeric type as in the template:
`minT` and `maxT` are `numeric_limits<T>::min()` and `::max()`, and `cast` is
`static_cast<T>`. -/
def clipT {α : Type} [LT α] [DecidableRel (fun (a b : α) => a < b)]
    (minT maxT : α) (cast : α → α) (a : α) : α :=
  if a < minT then minT
  else if a > maxT then maxT
  else cast a

/-- Instance of `clipT` for a signed storage type of `bits` bits and a signed
accumulator: the two comparisons are made in a signed type that holds both
operands. -/
def clipInt (bits : Nat) (a : Int) : Int := clipT (minOf bits) (maxOf bits) (wrap bits) a

/-- The statement `next_means[i][d] /= counts[i]`, with `counts[i]` a
`uint32_t`.  For an accumulator wider than 32 bits the count is converted to
`A` and the division is signed, truncating toward zero; otherwise the usual
arithmetic conversions turn both operands into `unsigned int`, and the unsigned
quotient is converted back to `A`. -/
def divCount (bits : Nat) (a : Int) (count : Nat) : Int :=
  if 32 < bits then Int.tdiv a (count : Int)
  else wrap bits ((a % 4294967296) / (count : Int))

/-- Member `double CalcDistance(const T* x, const T* u)`.  The differences and
the products are expressions of the type `T` promoted to at least `int`; each
product is converted to `double` when it is added to `temp`.  The library
`sqrt` returns NaN for a negative argument. -/
def KMeans.CalcDistance (sqrt : ℚ → ℚ) (km : KMeans bitsT bitsA) (x u : Nat → Int) :
    Option ℚ :=
  let w := max bitsT 32
  let temp : ℚ :=
    (List.range km.m_dimNum).foldl
      (fun (temp : ℚ) (d : Nat) =>
        temp + ((wrap w (wrap w (x d - u d) * wrap w (x d - u d)) : Int) : ℚ))
      0
  if temp < 0 then none else some (sqrt temp)

/-- The comparison step of the loop of `GetLabel`, over a table `f` of the
distances to the centroids: `acc` is the pair of `dist` and `*label`, and the
test is `temp < dist || dist == -1`. -/
def labelStep (f : Nat → Option ℚ) (acc : Option ℚ × Int) (i : Nat) : Option ℚ × Int :=
  if ltD (f i) acc.1 = true ∨ acc.1 = some (-1) then (f i, (i : Int)) else acc

/-- Member `double GetLabel(const T* sample, int* label)`: the result pairs the
returned distance with the value left in `*label`, whose incoming value is
`label`. -/
def KMeans.GetLabel (sqrt : ℚ → ℚ) (km : KMeans bitsT bitsA) (sample : Nat → Int)
    (label : Int) : Option ℚ × Int :=
  (List.range km.m_clusterNum).foldl
    (labelStep (fun i => km.CalcDistance sqrt sample (km.m_means (i : Int))))
    (some (-1), label)

/-- Transient buffers of one iteration of the loop of `Cluster`. -/
structure Buffers where
  counts : Int → Nat
  next_means : Int → Nat → Int
  currCost : Option ℚ
  label : Int

/-- Buffers after the `memset` calls and `currCost = 0` at the top of the loop
body. -/
def Buffers.cleared (label : Int) : Buffers :=
  { counts := fun _ => 0, next_means := fun _ _ => 0, currCost := some 0, label := label }

/-- Body of the classification loop for point `i`: read the point, call
`GetLabel`, add the distance to `currCost`, bump `counts[label]` (a `uint32_t`)
and add the point into `next_means[label]` (in `A`). -/
def KMeans.classify (sqrt : ℚ → ℚ) (km : KMeans bitsT bitsA) (data : Int → Int)
    (b : Buffers) (i : Nat) : Buffers :=
  let x := km.sample data (i : Int)
  let r := km.GetLabel sqrt x b.label
  let label := r.2
  { currCost := addD b.currCost r.1
    label := label
    counts := Function.update b.counts label ((b.counts label + 1) % 4294967296)
    next_means :=
      (List.range km.m_dimNum).foldl
        (fun (nm : Int → Nat → Int) (d : Nat) =>
          Function.update nm label
            (Function.update (nm label) d (wrap bitsA (nm label d + x d))))
        b.next_means }

/-- The classification loop `for (i < size)` followed by `currCost /= size`. -/
def KMeans.classification (sqrt : ℚ → ℚ) (km : KMeans bitsT bitsA) (data : Int → Int)
    (N : Int) (label : Int) : Buffers :=
  let b := (List.range N.toNat).foldl (km.classify sqrt data) (Buffers.cleared label)
  { b with currCost := divD b.currCost N }

/-- The re-estimation loop: for every cluster with `counts[i] > 0` and every
`d`, `next_means[i][d] /= counts[i]` and
`m_means[i][d] = clipT(next_means[i][d])`. -/
def KMeans.reestimate (km : KMeans bitsT bitsA) (b : Buffers) : KMeans bitsT bitsA :=
  (List.range km.m_clusterNum).foldl
    (fun (st : KMeans bitsT bitsA) (i : Nat) =>
      if b.counts (i : Int) > 0 then
        (List.range km.m_dimNum).foldl
          (fun (st : KMeans bitsT bitsA) (d : Nat) =>
            let q := divCount bitsA (b.next_means (i : Int) d) (b.counts (i : Int))
            let row := Function.update (st.m_means (i : Int)) d (clipInt bitsT q)
            { st with m_means := Function.update st.m_means (i : Int) row })
          st
      else st)
    km

/-- Local variables of `Cluster` that live across iterations, with the engine. -/
structure LoopState (bitsT bitsA : Nat) where
  km : KMeans bitsT bitsA
  label : Int
  iterNum : Int
  lastCost : Option ℚ
  currCost : Option ℚ
  unchanged : Int

/-- One execution of the body of `while(loop)`, up to and including the update
of `iterNum` and `unchanged`. -/
def LoopState.body (sqrt : ℚ → ℚ) (data : Int → Int) (N : Int)
    (s : LoopState bitsT bitsA) : LoopState bitsT bitsA :=
  let lastCost := s.currCost
  let b := s.km.classification sqrt data N s.label
  let currCost := b.currCost
  let km := s.km.reestimate b
  let iterNum := s.iterNum + 1
  let unchanged :=
    if stableTest km.m_endError lastCost currCost then s.unchanged + 1 else s.unchanged
  { km := km, label := b.label, iterNum := iterNum, lastCost := lastCost,
    currCost := currCost, unchanged := unchanged }

/-- The test that clears `loop`. -/
def LoopState.stop (s : LoopState bitsT bitsA) : Bool :=
  decide (s.iterNum ≥ s.km.m_maxIterNum ∨ s.unchanged ≥ 3)

/-- The loop `while(loop) { ... }`, run for at most `fuel` iterations; `none`
when the fuel is exhausted before the loop exits. -/
def LoopState.run (sqrt : ℚ → ℚ) (data : Int → Int) (N : Int) :
    Nat → LoopState bitsT bitsA → Option (LoopState bitsT bitsA)
  | 0, _ => none
  | fuel + 1, s =>
    let s' := s.body sqrt data N
    if s'.stop then some s' else LoopState.run sqrt data N fuel s'

/-- The final pass `if (Label) for (i < size) { ...; Label[i] = label; }`. -/
def KMeans.emitLabels (sqrt : ℚ → ℚ) (km : KMeans bitsT bitsA) (data : Int → Int) (N : Int)
    (label : Int) (Label : Nat → Int) : Nat → Int :=
  ((List.range N.toNat).foldl
    (fun (acc : Int × (Nat → Int)) (i : Nat) =>
      let r := km.GetLabel sqrt (km.sample data (i : Int)) acc.1
      (r.2, Function.update acc.2 i r.2))
    (label, Label)).2

/-- Ways in which `Cluster` does not return.  `assertion km Label` is the
failure of `assert(size >= m_clusterNum)`, which ends the program: `km` and
`Label` are the engine and the label buffer as the statements executed before
the `assert` have left them.  `fuel` is the exhaustion of the fuel given to the
loop. -/
inductive Fault (bitsT bitsA : Nat) where
  | assertion (km : KMeans bitsT bitsA) (Label : Option (Nat → Int))
  | fuel

/-- Member `void Cluster(const T* data, int N, int* Label)`, statement by
statement; the engine is threaded through under the one name `km`.  `Label` is
`none` for a null pointer.  The result is the engine and the label buffer on
return.  The `assert` is active (`NDEBUG` is not defined).  The loop is given
`max 1 m_maxIterNum` iterations of fuel. -/
def KMeans.Cluster (sqrt : ℚ → ℚ) (RAND_MAX : Int) (rand : Nat → Int)
    (km : KMeans bitsT bitsA) (data : Int → Int) (N : Int) (Label : Option (Nat → Int)) :
    Except (Fault bitsT bitsA) (KMeans bitsT bitsA × Option (Nat → Int)) :=
  let size := N
  if ¬ (size ≥ (km.m_clusterNum : Int)) then Except.error (Fault.assertion km Label)
  else
    let km := km.Init RAND_MAX rand data N
    let s0 : LoopState bitsT bitsA :=
      { km := km, label := -1, iterNum := 0, lastCost := some 0, currCost := some 0,
        unchanged := 0 }
    match LoopState.run sqrt data N (max 1 km.m_maxIterNum).toNat s0 with
    | none => Except.error Fault.fuel
    | some s =>
      Except.ok (s.km, Label.map (fun L => s.km.emitLabels sqrt data N s.label L))

/-! ## Derived notions used to state the properties -/

/-- Label that `GetLabel` gives to point `i` with the centroids of `km`. -/
def KMeans.labelOf (sqrt : ℚ → ℚ) (km : KMeans bitsT bitsA) (data : Int → Int) (i : Nat) :
    Int :=
  (km.GetLabel sqrt (km.sample data (i : Int)) (-1)).2

/-- Indices, among the first `n` points, of the points assigned to cluster `c`. -/
def KMeans.assigned (sqrt : ℚ → ℚ) (km : KMeans bitsT bitsA) (data : Int → Int) (n : Nat)
    (c : Int) : List Nat :=
  (List.range n).filter (fun i => decide (km.labelOf sqrt data i = c))

/-- Closed form of the centroids after the re-estimation loop has handled
clusters `0 .. n-1`. -/
def reestimated (km : KMeans bitsT bitsA) (b : Buffers) (n : Nat) : Int → Nat → Int :=
  fun c e =>
    if 0 ≤ c ∧ c < (n : Int) ∧ b.counts c > 0 ∧ e < km.m_dimNum then
      clipInt bitsT (divCount bitsA (b.next_means c e) (b.counts c))
    else km.m_means c e

/-- Closed form of the centroids after the seeding loop of `Init` has handled
clusters `0 .. n-1`, cluster `i` being seeded from point `sel i`. -/
def seeded (km : KMeans bitsT bitsA) (data : Int → Int) (sel : Nat → Int) (n : Nat) :
    Int → Nat → Int :=
  fun c d =>
    if 0 ≤ c ∧ c < (n : Int) ∧ d < km.m_dimNum then km.sample data (sel c.toNat) d
    else km.m_means c d

/-! ## Concrete inputs -/

/-- Number of binary digits of `n`, computed with at most `fuel` halvings. -/
def bitLength : Nat → Nat → Nat
  | 0, _ => 0
  | fuel + 1, n => if n = 0 then 0 else bitLength fuel (n / 2) + 1

/-- Digit-by-digit integer square root: the `k` lowest binary digits of the
root are decided from the highest down, `r` holding the digits already
decided. -/
def sqrtDigits (n : Nat) : Nat → Nat → Nat
  | 0, r => r
  | k + 1, r =>
    if (r + 2 ^ k) * (r + 2 ^ k) ≤ n then sqrtDigits n k (r + 2 ^ k) else sqrtDigits n k r

/-- Integer square root of a natural number. -/
def natSqrt (n : Nat) : Nat := sqrtDigits n (bitLength n n) 0

/-- A stand-in for `sqrt`, exact on the squares of integers (the integer square
root of the numerator), used to run the engine on concrete inputs. -/
def demoSqrt (q : ℚ) : ℚ := (natSqrt q.num.toNat : ℚ)

/-- The engine `KMeans<int32_t, int64_t>(1, 2)` switched to uniform seeding. -/
def demoEngine : KMeans 32 64 :=
  { m_dimNum := 1, m_clusterNum := 2, m_means := fun _ _ => 0, m_initMode := InitUniform,
    m_maxIterNum := 100, m_endError := endErrorDefault }

/-- The buffer `[1, 2, 3, 10, 11, 12]`. -/
def demoData : Int → Int := fun p => [1, 2, 3, 10, 11, 12].getD p.toNat 0

/-- An iteration state of `KMeans<int32_t, int64_t>` whose two centroids are
`[0]` and `[10]`. -/
def negState : LoopState 32 64 :=
  { km := { demoEngine with m_means := fun c _ => if c = 0 then 0 else 10 },
    label := -1, iterNum := 0, lastCost := some 0, currCost := some 0, unchanged := 0 }

/-- The buffer `[-3, -4, 9]`. -/
def negData : Int → Int := fun p => [-3, -4, 9].getD p.toNat 0

/-- Buffers of an iteration in which every cluster holds two points whose sum,
in every component, is `10^10`. -/
def wideBuffers : Buffers :=
  { counts := fun _ => 2, next_means := fun _ _ => 10000000000, currCost := some 0,
    label := 0 }

/-- An iteration state of `KMeans<int16_t, int32_t>(1, 1)` whose centroid is
`[0]`. -/
def shortState : LoopState 16 32 :=
  { km := { m_dimNum := 1, m_clusterNum := 1, m_means := fun _ _ => 0,
            m_initMode := InitManual, m_maxIterNum := 100, m_endError := endErrorDefault },
    label := -1, iterNum := 0, lastCost := some 0, currCost := some 0, unchanged := 0 }

/-- The buffer `[-3, -3]`. -/
def shortData : Int → Int := fun p => [-3, -3].getD p.toNat 0

/-- The engine `KMeans<int32_t, int64_t>(1, 2049)` switched to uniform
seeding. -/
def bigEngine : KMeans 32 64 :=
  { m_dimNum := 1, m_clusterNum := 2049, m_means := fun _ _ => 0, m_initMode := InitUniform,
    m_maxIterNum := 100, m_endError := endErrorDefault }

/-- The engine `KMeans<int32_t, int64_t>(1, 1)`, in its default mode
`InitRandom`. -/
def tinyEngine : KMeans 32 64 :=
  { m_dimNum := 1, m_clusterNum := 1, m_means := fun _ _ => 0, m_initMode := InitRandom,
    m_maxIterNum := 100, m_endError := endErrorDefault }

/-- A buffer in which every slot holds its own offset, so that a value read
tells where it was read. -/
def offsetData : Int → Int := fun p => p

/-- The engine `KMeans<int32_t, int64_t>(1, 2)` holding the centroids `[50000]`
and `[1]`. -/
def farEngine : KMeans 32 64 :=
  { m_dimNum := 1, m_clusterNum := 2, m_means := fun c _ => if c = 0 then 50000 else 1,
    m_initMode := InitManual, m_maxIterNum := 100, m_endError := endErrorDefault }

/-- The buffer `[50000, 0]`. -/
def farData : Int → Int := fun p => [50000, 0].getD p.toNat 0

/-! ## Construction, setters and the state `Cluster` starts from -/

/-- Constructor `KMeans(int dimNum = 1, int clusterNum = 1)`.  It holds no test
of its arguments.  The arrays come from `new T*[m_clusterNum]`, once, and
`new T[m_dimNum]`, once per cluster; `new[]` fails for a negative size, and
`none` is that failure.  Every allocated row is zeroed by `memset`. -/
def KMeans.construct (bitsT bitsA : Nat) (dimNum clusterNum : Int) :
    Option (KMeans bitsT bitsA) :=
  if clusterNum < 0 then none
  else if 0 < clusterNum ∧ dimNum < 0 then none
  else
    some
      { m_dimNum := dimNum.toNat, m_clusterNum := clusterNum.toNat, m_means := fun _ _ => 0,
        m_initMode := InitRandom, m_maxIterNum := 100, m_endError := endErrorDefault }

/-- Member `void SetMean(int i, const T* u)`:
`memcpy(m_means[i], u, sizeof(T) * m_dimNum)`. -/
def KMeans.SetMean (km : KMeans bitsT bitsA) (i : Int) (u : Nat → Int) : KMeans bitsT bitsA :=
  { km with m_means := km.copyRow km.m_means i u }

/-- Member `void SetInitMode(int i)`. -/
def KMeans.SetInitMode (km : KMeans bitsT bitsA) (i : Int) : KMeans bitsT bitsA :=
  { km with m_initMode := i }

/-- Member `void SetMaxIterNum(int i)`. -/
def KMeans.SetMaxIterNum (km : KMeans bitsT bitsA) (i : Int) : KMeans bitsT bitsA :=
  { km with m_maxIterNum := i }

/-- Member `void SetEndError(T f)`: the argument is a value of the storage type,
converted to `double` by the assignment. -/
def KMeans.SetEndError (km : KMeans bitsT bitsA) (f : Int) : KMeans bitsT bitsA :=
  { km with m_endError := (f : ℚ) }

/-- Locals of `Cluster` as the loop is entered: the engine after `Init`,
`label = -1`, `iterNum = 0`, `lastCost = 0.0`, `currCost = 0.0`,
`unchanged = 0`. -/
def KMeans.loopStart (RAND_MAX : Int) (rand : Nat → Int) (km : KMeans bitsT bitsA)
    (data : Int → Int) (N : Int) : LoopState bitsT bitsA :=
  { km := km.Init RAND_MAX rand data N, label := -1, iterNum := 0, lastCost := some 0,
    currCost := some 0, unchanged := 0 }

/-- The engine `KMeans<int32_t, int64_t>(1, 2)` with `InitManual` and the
centroids `[4]` and `[9]` stored by the caller. -/
def manualEngine : KMeans 32 64 :=
  { m_dimNum := 1, m_clusterNum := 2, m_means := fun c _ => if c = 0 then 4 else 9,
    m_initMode := InitManual, m_maxIterNum := 100, m_endError := endErrorDefault }

/-! ## The iterations of the loop, as the specification counts them -/

/-- State of the loop after `t` executions of its body, from the state `s`. -/
def LoopState.iter (sqrt : ℚ → ℚ) (data : Int → Int) (N : Int) :
    Nat → LoopState bitsT bitsA → LoopState bitsT bitsA
  | 0, s => s
  | t + 1, s => (LoopState.iter sqrt data N t s).body sqrt data N

/-- The cost `c_t` of iteration `t`, counted from the state `s`; `c_0` is the
value `currCost` has when the loop is entered. -/
def LoopState.cost (sqrt : ℚ → ℚ) (data : Int → Int) (N : Int) (s : LoopState bitsT bitsA)
    (t : Nat) : Option ℚ :=
  (LoopState.iter sqrt data N t s).currCost

/-- Number of iterations `u` with `1 <= u <= t` that satisfy
`|c_(u-1) - c_u| < endError * c_(u-1)`, consecutive or not. -/
def LoopState.stableCount (sqrt : ℚ → ℚ) (data : Int → Int) (N : Int)
    (s : LoopState bitsT bitsA) (t : Nat) : Nat :=
  ((List.range t).filter
    (fun u => stableTest s.km.m_endError (LoopState.cost sqrt data N s u)
      (LoopState.cost sqrt data N s (u + 1)))).length

/-- The exit condition of the specification after iteration `t`: `t >= maxIter`,
or at least 3 of the iterations so far passed the convergence test. -/
def LoopState.exitTest (sqrt : ℚ → ℚ) (data : Int → Int) (N : Int)
    (s : LoopState bitsT bitsA) (t : Nat) : Prop :=
  (t : Int) ≥ s.km.m_maxIterNum ∨ LoopState.stableCount sqrt data N s t ≥ 3

/-- Distance that `GetLabel` returns for point `i` with the centroids of
`km`. -/
def KMeans.distOf (sqrt : ℚ → ℚ) (km : KMeans bitsT bitsA) (data : Int → Int) (i : Nat) :
    Option ℚ :=
  (km.GetLabel sqrt (km.sample data (i : Int)) (-1)).1

/-! ## Distances that are roots of perfect squares -/

/-- The value of `temp` that `CalcDistance` passes to `sqrt`. -/
def KMeans.sqDist (km : KMeans bitsT bitsA) (x u : Nat → Int) : ℚ :=
  (List.range km.m_dimNum).foldl
    (fun (temp : ℚ) (d : Nat) =>
      temp + ((wrap (max bitsT 32) (wrap (max bitsT 32) (x d - u d) *
        wrap (max bitsT 32) (x d - u d)) : Int) : ℚ))
    0

/-- Whether `q` is the square of a natural number. -/
def isSquare (q : ℚ) : Bool :=
  decide (q.den = 1 ∧ 0 ≤ q.num ∧ Nat.sqrt q.num.toNat * Nat.sqrt q.num.toNat = q.num.toNat)

/-- Whether every call of `sqrt` made to classify the `N` points with the
centroids of `km` has the square of a natural number as its argument (no
distance is then NaN). -/
def KMeans.squaresOnly (km : KMeans bitsT bitsA) (data : Int → Int) (N : Int) : Bool :=
  (List.range N.toNat).all (fun i =>
    (List.range km.m_clusterNum).all (fun j =>
      isSquare (km.sqDist (km.sample data (i : Int)) (km.m_means (j : Int)))))

/-- Whether centroid `i` of `km` is point `i` of the buffer, for every
`i < K`: `m_means[i][d] = data[i*D + d]` for `d < D`. -/
def KMeans.holdsPoints (km : KMeans bitsT bitsA) (data : Int → Int) : Prop :=
  ∀ i d : Nat, i < km.m_clusterNum → d < km.m_dimNum →
    km.m_means (i : Int) d = data ((i : Int) * (km.m_dimNum : Int) + (d : Int))

/-- Whether the first `K` points of the buffer are pairwise distinct, with
coordinates in `[-23170, 23170]` and offsets that fit in `int`: every
difference of two stored values then has a square below `2^31`. -/
def KMeans.smallDistinct (km : KMeans bitsT bitsA) (data : Int → Int) : Prop :=
  1 ≤ km.m_clusterNum ∧
  (km.m_clusterNum : Int) * (km.m_dimNum : Int) ≤ 2147483647 ∧
  (∀ p : Int, 0 ≤ p → p < (km.m_clusterNum : Int) * (km.m_dimNum : Int) →
    -23170 ≤ data p ∧ data p ≤ 23170) ∧
  (∀ i j : Nat, i < km.m_clusterNum → j < km.m_clusterNum → i ≠ j →
    ∃ d : Nat, d < km.m_dimNum ∧
      data ((i : Int) * (km.m_dimNum : Int) + (d : Int)) ≠
        data ((j : Int) * (km.m_dimNum : Int) + (d : Int)))

/-- The engine `KMeans<int32_t, int64_t>(1, 2)` switched to uniform seeding, for
a buffer of two points. -/
def pairEngine : KMeans 32 64 :=
  { m_dimNum := 1, m_clusterNum := 2, m_means := fun _ _ => 0, m_initMode := InitUniform,
    m_maxIterNum := 100, m_endError := endErrorDefault }

/-- The buffer `[5, 9]`. -/
def pairData : Int → Int := fun p => [5, 9].getD p.toNat 0

/-! # Lemmas -/

/-! ## Machine arithmetic: basic facts -/

theorem wrap32_of_range (x : Int) (h1 : -2147483648 ≤ x) (h2 : x ≤ 2147483647) :
    wrap32 x = x := by
  unfold wrap32; omega

theorem wrap32_range (x : Int) : -2147483648 ≤ wrap32 x ∧ wrap32 x ≤ 2147483647 := by
  unfold wrap32; omega

theorem half_pos (bits : Nat) : 0 < half bits := by
  unfold half; positivity

theorem wrap_wrap_add (bits : Nat) (a b : Int) :
    wrap bits (wrap bits a + b) = wrap bits (a + b) := by
  unfold wrap
  have h : (a + half bits) % (2 * half bits) - half bits + b + half bits =
      (a + half bits) % (2 * half bits) + b := by ring
  rw [h, Int.emod_add_emod]
  have h2 : a + half bits + b = a + b + half bits := by ring
  rw [h2]

theorem wrap_zero (bits : Nat) : wrap bits 0 = 0 := by
  unfold wrap
  have hp := half_pos bits
  rw [zero_add, Int.emod_eq_of_lt (le_of_lt hp) (by omega)]
  omega

theorem wrap_of_range (bits : Nat) (x : Int) (h1 : minOf bits ≤ x) (h2 : x ≤ maxOf bits) :
    wrap bits x = x := by
  unfold minOf at h1
  unfold maxOf at h2
  unfold wrap
  rw [Int.emod_eq_of_lt (by omega) (by omega)]
  omega

theorem wrap_range (bits : Nat) (x : Int) :
    minOf bits ≤ wrap bits x ∧ wrap bits x ≤ maxOf bits := by
  unfold minOf maxOf wrap
  have hp := half_pos bits
  have h1 := Int.emod_nonneg (x + half bits) (show (2 * half bits) ≠ 0 by omega)
  have h2 := Int.emod_lt_of_pos (x + half bits) (show 0 < 2 * half bits by omega)
  constructor <;> omega

/-! ## `GetLabel` -/

theorem labelStep_foldl_spec (f : Nat → Option ℚ) (g : Nat → ℚ) (l : Int) (n : Nat)
    (hf : ∀ i, i < n + 1 → f i = some (g i)) (hg : ∀ i, i < n + 1 → g i ≠ -1) :
    ∃ m : Nat, m < n + 1 ∧
      (List.range (n + 1)).foldl (labelStep f) (some (-1), l) = (some (g m), (m : Int)) ∧
      (∀ j, j < n + 1 → g m ≤ g j) ∧ (∀ j, j < m → g m < g j) := by
  induction n with
  | zero =>
    refine ⟨0, by omega, ?_, ?_, ?_⟩
    · simp [List.range_succ, labelStep, hf 0 (by omega)]
    · intro j hj
      have : j = 0 := by omega
      subst this; exact le_refl _
    · intro j hj; omega
  | succ n ih =>
    obtain ⟨m, hm, hfold, hmin, hfirst⟩ :=
      ih (fun i hi => hf i (by omega)) (fun i hi => hg i (by omega))
    rw [List.range_succ, List.foldl_append, hfold]
    have hfn := hf (n + 1) (by omega)
    have hne : (some (g m) : Option ℚ) ≠ some (-1) := by
      intro h
      exact hg m (by omega) (Option.some.inj h)
    by_cases hlt : g (n + 1) < g m
    · refine ⟨n + 1, by omega, ?_, ?_, ?_⟩
      · simp [labelStep, ltD, hfn, hlt]
      · intro j hj
        by_cases hjn : j = n + 1
        · subst hjn; exact le_refl _
        · exact le_of_lt (lt_of_lt_of_le hlt (hmin j (by omega)))
      · intro j hj
        exact lt_of_lt_of_le hlt (hmin j (by omega))
    · refine ⟨m, by omega, ?_, ?_, hfirst⟩
      · simp [labelStep, ltD, hfn, hlt, hne]
      · intro j hj
        by_cases hjn : j = n + 1
        · subst hjn; exact not_lt.mp hlt
        · exact hmin j (by omega)

theorem labelStep_foldl_range (f : Nat → Option ℚ) (l : Int) (n : Nat) :
    0 ≤ ((List.range (n + 1)).foldl (labelStep f) (some (-1), l)).2 ∧
      ((List.range (n + 1)).foldl (labelStep f) (some (-1), l)).2 < (n : Int) + 1 := by
  induction n with
  | zero => simp [List.range_succ, labelStep]
  | succ n ih =>
    rw [List.range_succ, List.foldl_append]
    simp only [List.foldl_cons, List.foldl_nil]
    generalize (List.range (n + 1)).foldl (labelStep f) (some (-1), l) = acc at ih
    unfold labelStep
    split
    · simp only [Nat.cast_add, Nat.cast_one]; omega
    · simp only [Nat.cast_add, Nat.cast_one]; omega

theorem labelStep_foldl_indep (f : Nat → Option ℚ) (l l' : Int) (n : Nat) :
    (List.range (n + 1)).foldl (labelStep f) (some (-1), l) =
      (List.range (n + 1)).foldl (labelStep f) (some (-1), l') := by
  rw [List.range_succ_eq_map]
  simp [labelStep]

theorem GetLabel_range (sqrt : ℚ → ℚ) (km : KMeans bitsT bitsA) (x : Nat → Int) (l : Int)
    (hK : 0 < km.m_clusterNum) :
    0 ≤ (km.GetLabel sqrt x l).2 ∧ (km.GetLabel sqrt x l).2 < (km.m_clusterNum : Int) := by
  obtain ⟨n, hn⟩ : ∃ n, km.m_clusterNum = n + 1 := ⟨km.m_clusterNum - 1, by omega⟩
  unfold KMeans.GetLabel
  rw [hn]
  have h := labelStep_foldl_range
    (fun i => km.CalcDistance sqrt x (km.m_means (i : Int))) l n
  simpa using h

theorem GetLabel_indep (sqrt : ℚ → ℚ) (km : KMeans bitsT bitsA) (x : Nat → Int) (l l' : Int)
    (hK : 0 < km.m_clusterNum) :
    km.GetLabel sqrt x l = km.GetLabel sqrt x l' := by
  obtain ⟨n, hn⟩ : ∃ n, km.m_clusterNum = n + 1 := ⟨km.m_clusterNum - 1, by omega⟩
  unfold KMeans.GetLabel
  rw [hn]
  exact labelStep_foldl_indep _ l l' n

theorem GetLabel_spec (sqrt : ℚ → ℚ) (km : KMeans bitsT bitsA) (x : Nat → Int) (l : Int)
    (g : Nat → ℚ) (hK : 0 < km.m_clusterNum)
    (hf : ∀ j : Nat, j < km.m_clusterNum →
      km.CalcDistance sqrt x (km.GetMean (j : Int)) = some (g j))
    (hg : ∀ j : Nat, j < km.m_clusterNum → g j ≠ -1) :
    ∃ m : Nat, m < km.m_clusterNum ∧ km.GetLabel sqrt x l = (some (g m), (m : Int)) ∧
      (∀ j : Nat, j < km.m_clusterNum → g m ≤ g j) ∧ (∀ j : Nat, j < m → g m < g j) := by
  obtain ⟨n, hn⟩ : ∃ n, km.m_clusterNum = n + 1 := ⟨km.m_clusterNum - 1, by omega⟩
  obtain ⟨m, hm, hfold, hmin, hfirst⟩ :=
    labelStep_foldl_spec (fun i => km.CalcDistance sqrt x (km.m_means (i : Int))) g l n
      (fun j hj => hf j (by omega)) (fun j hj => hg j (by omega))
  refine ⟨m, by omega, ?_, ?_, ?_⟩
  · unfold KMeans.GetLabel; rw [hn]; exact hfold
  · intro j hj; exact hmin j (by omega)
  · intro j hj; exact hfirst j hj

/-! ## The re-estimation loop -/

theorem rowLoop_eq (g : Nat → Int) (i : Int) (n : Nat) (st : KMeans bitsT bitsA) :
    (List.range n).foldl
        (fun (st : KMeans bitsT bitsA) (d : Nat) =>
          let row := Function.update (st.m_means i) d (g d)
          { st with m_means := Function.update st.m_means i row })
        st =
      { st with m_means := fun c e => if c = i ∧ e < n then g e else st.m_means c e } := by
  induction n with
  | zero => simp
  | succ n ih =>
    rw [List.range_succ, List.foldl_append, ih]
    simp only [List.foldl_cons, List.foldl_nil]
    congr 1
    funext c e
    by_cases hc : c = i
    · subst hc
      by_cases he : e = n
      · subst he; simp
      · have : (e < n + 1) = (e < n) := by
          apply propext; constructor <;> intro h <;> omega
        simp [Function.update, he, this]
    · simp [Function.update, hc]

theorem reestimate_loop_eq (km : KMeans bitsT bitsA) (b : Buffers) (n : Nat) :
    (List.range n).foldl
      (fun (st : KMeans bitsT bitsA) (i : Nat) =>
        if b.counts (i : Int) > 0 then
          (List.range km.m_dimNum).foldl
            (fun (st : KMeans bitsT bitsA) (d : Nat) =>
              let q := divCount bitsA (b.next_means (i : Int) d) (b.counts (i : Int))
              let row := Function.update (st.m_means (i : Int)) d (clipInt bitsT q)
              { st with m_means := Function.update st.m_means (i : Int) row })
            st
        else st)
      km = { km with m_means := reestimated km b n } := by
  induction n with
  | zero =>
    simp only [List.range_zero, List.foldl_nil]
    obtain ⟨m_dimNum, m_clusterNum, m_means, m_initMode, m_maxIterNum, m_endError⟩ := km
    simp only [KMeans.mk.injEq, true_and, and_true]
    funext c e
    have : ¬ (0 ≤ c ∧ c < 0 ∧ 0 < b.counts c ∧ e < m_dimNum) := by
      rintro ⟨h1, h2, -⟩; omega
    simp only [reestimated, Nat.cast_zero, gt_iff_lt, this, if_false]
  | succ n ih =>
    rw [List.range_succ, List.foldl_append, ih]
    simp only [List.foldl_cons, List.foldl_nil]
    by_cases hcnt : b.counts (n : Int) > 0
    · rw [if_pos hcnt]
      have h := rowLoop_eq
        (fun d => clipInt bitsT (divCount bitsA (b.next_means (n : Int) d) (b.counts (n : Int))))
        (n : Int) km.m_dimNum ({ km with m_means := reestimated km b n } : KMeans bitsT bitsA)
      simp only at h
      rw [h]
      congr 1
      funext c e
      simp only [reestimated]
      by_cases hc : c = (n : Int)
      · subst hc
        by_cases he : e < km.m_dimNum
        · simp [he, hcnt]
        · simp [he]
      · have : (c < (n : Int) + 1) = (c < (n : Int)) := by
          apply propext; constructor <;> intro h <;> omega
        simp [hc, this]
    · rw [if_neg hcnt]
      congr 1
      funext c e
      simp only [reestimated]
      by_cases hc : c = (n : Int)
      · subst hc
        simp [hcnt]
      · have : (c < (n : Int) + 1) = (c < (n : Int)) := by
          apply propext; constructor <;> intro h <;> omega
        simp [hc, this]

theorem reestimate_eq (km : KMeans bitsT bitsA) (b : Buffers) :
    km.reestimate b = { km with m_means := reestimated km b km.m_clusterNum } :=
  reestimate_loop_eq km b km.m_clusterNum

/-! ## The classification loop -/

theorem accLoop_eq (bits : Nat) (x : Nat → Int) (label : Int) (n : Nat)
    (nm0 : Int → Nat → Int) :
    (List.range n).foldl
        (fun (nm : Int → Nat → Int) (d : Nat) =>
          Function.update nm label
            (Function.update (nm label) d (wrap bits (nm label d + x d))))
        nm0 =
      fun c e => if c = label ∧ e < n then wrap bits (nm0 c e + x e) else nm0 c e := by
  induction n with
  | zero => simp
  | succ n ih =>
    rw [List.range_succ, List.foldl_append, ih]
    simp only [List.foldl_cons, List.foldl_nil]
    funext c e
    by_cases hc : c = label
    · subst hc
      by_cases he : e = n
      · subst he; simp
      · have : (e < n + 1) = (e < n) := by
          apply propext; constructor <;> intro h <;> omega
        simp [Function.update, he, this]
    · simp [Function.update, hc]

theorem assigned_succ (sqrt : ℚ → ℚ) (km : KMeans bitsT bitsA) (data : Int → Int) (n : Nat)
    (c : Int) :
    km.assigned sqrt data (n + 1) c =
      if km.labelOf sqrt data n = c then km.assigned sqrt data n c ++ [n]
      else km.assigned sqrt data n c := by
  unfold KMeans.assigned
  rw [List.range_succ, List.filter_append]
  by_cases h : km.labelOf sqrt data n = c
  · simp [h]
  · simp [h]

theorem assigned_length_le (sqrt : ℚ → ℚ) (km : KMeans bitsT bitsA) (data : Int → Int)
    (n : Nat) (c : Int) :
    (km.assigned sqrt data n c).length ≤ n := by
  unfold KMeans.assigned
  calc ((List.range n).filter _).length ≤ (List.range n).length := List.length_filter_le _ _
    _ = n := List.length_range n

theorem classify_fold (sqrt : ℚ → ℚ) (km : KMeans bitsT bitsA) (data : Int → Int) (l0 : Int)
    (hK : 0 < km.m_clusterNum) (n : Nat) :
    (∀ c, ((List.range n).foldl (km.classify sqrt data) (Buffers.cleared l0)).counts c =
        (km.assigned sqrt data n c).length % 4294967296) ∧
    (∀ c e, ((List.range n).foldl (km.classify sqrt data) (Buffers.cleared l0)).next_means c e =
        if e < km.m_dimNum then
          wrap bitsA ((km.assigned sqrt data n c).map (fun i => km.sample data (i : Int) e)).sum
        else 0) := by
  induction n with
  | zero =>
    constructor
    · intro c; simp [KMeans.assigned, Buffers.cleared]
    · intro c e; simp [KMeans.assigned, Buffers.cleared, wrap_zero]
  | succ n ih =>
    rw [List.range_succ, List.foldl_append]
    simp only [List.foldl_cons, List.foldl_nil]
    generalize (List.range n).foldl (km.classify sqrt data) (Buffers.cleared l0) = b at ih
    obtain ⟨ihc, ihm⟩ := ih
    have hlab : (km.GetLabel sqrt (km.sample data (n : Int)) b.label).2 =
        km.labelOf sqrt data n := by
      unfold KMeans.labelOf
      rw [GetLabel_indep sqrt km _ b.label (-1) hK]
    constructor
    · intro c
      simp only [KMeans.classify, hlab]
      rw [assigned_succ]
      by_cases h : km.labelOf sqrt data n = c
      · subst h
        simp only [Function.update_same, if_true, List.length_append, List.length_singleton]
        rw [ihc]; omega
      · rw [if_neg h, Function.update_noteq (Ne.symm h)]
        exact ihc c
    · intro c e
      simp only [KMeans.classify, hlab]
      rw [accLoop_eq, assigned_succ]
      by_cases h : c = km.labelOf sqrt data n
      · subst h
        by_cases he : e < km.m_dimNum
        · simp only [he, and_self, if_true, true_and]
          rw [ihm, if_pos he, wrap_wrap_add]
          simp [List.sum_append]
        · simp only [he, and_false, if_false]
          rw [ihm, if_neg he]
      · have h' : ¬ km.labelOf sqrt data n = c := fun h2 => h h2.symm
        simp only [h, h', false_and, if_false]
        exact ihm c e

theorem classification_counts (sqrt : ℚ → ℚ) (km : KMeans bitsT bitsA) (data : Int → Int)
    (N : Int) (l0 : Int) (hK : 0 < km.m_clusterNum) (c : Int) :
    (km.classification sqrt data N l0).counts c =
      (km.assigned sqrt data N.toNat c).length % 4294967296 :=
  (classify_fold sqrt km data l0 hK N.toNat).1 c

theorem classification_next_means (sqrt : ℚ → ℚ) (km : KMeans bitsT bitsA)
    (data : Int → Int) (N : Int) (l0 : Int) (hK : 0 < km.m_clusterNum) (c : Int) (e : Nat) :
    (km.classification sqrt data N l0).next_means c e =
      if e < km.m_dimNum then
        wrap bitsA
          ((km.assigned sqrt data N.toNat c).map (fun i => km.sample data (i : Int) e)).sum
      else 0 :=
  (classify_fold sqrt km data l0 hK N.toNat).2 c e

/-! ## `Init` -/

theorem seedLoop_eq (km : KMeans bitsT bitsA) (data : Int → Int) (sel : Nat → Int) (n : Nat) :
    (List.range n).foldl
      (fun (st : KMeans bitsT bitsA) (i : Nat) =>
        { st with m_means := st.copyRow st.m_means (i : Int) (st.sample data (sel i)) })
      km = { km with m_means := seeded km data sel n } := by
  induction n with
  | zero =>
    simp only [List.range_zero, List.foldl_nil]
    obtain ⟨m_dimNum, m_clusterNum, m_means, m_initMode, m_maxIterNum, m_endError⟩ := km
    simp only [KMeans.mk.injEq, true_and, and_true]
    funext c d
    have : ¬ (0 ≤ c ∧ c < 0 ∧ d < m_dimNum) := by
      rintro ⟨h1, h2, -⟩; omega
    simp only [seeded, Nat.cast_zero, this, if_false]
  | succ n ih =>
    rw [List.range_succ, List.foldl_append, ih]
    simp only [List.foldl_cons, List.foldl_nil]
    congr 1
    funext c d
    simp only [KMeans.copyRow, seeded, KMeans.sample]
    by_cases hc : c = (n : Int)
    · subst hc
      by_cases hd : d < km.m_dimNum
      · simp [hd]
      · simp [hd]
    · have : (c < (n : Int) + 1) = (c < (n : Int)) := by
        apply propext; constructor <;> intro h <;> omega
      simp [hc, this]

theorem Init_uniform_eq (RAND_MAX : Int) (rand : Nat → Int) (km : KMeans bitsT bitsA)
    (data : Int → Int) (N : Int)
    (h1 : km.m_initMode ≠ InitManual) (h2 : km.m_initMode ≠ InitRandom) :
    km.Init RAND_MAX rand data N =
      { km with m_means :=
          (seeded km data (fun i => selectUniform N (km.m_clusterNum : Int) (i : Int))
            km.m_clusterNum) } := by
  unfold KMeans.Init
  rw [if_neg h1, if_neg h2]
  exact seedLoop_eq km data _ km.m_clusterNum

theorem Init_random_eq (RAND_MAX : Int) (rand : Nat → Int) (km : KMeans bitsT bitsA)
    (data : Int → Int) (N : Int) (h : km.m_initMode = InitRandom) :
    km.Init RAND_MAX rand data N =
      { km with m_means :=
          (seeded km data
            (fun i =>
              selectRandom RAND_MAX (Int.tdiv N (km.m_clusterNum : Int)) (i : Int) (rand i))
            km.m_clusterNum) } := by
  unfold KMeans.Init
  have h1 : km.m_initMode ≠ InitManual := by rw [h]; decide
  rw [if_neg h1, if_pos h]
  exact seedLoop_eq km data _ km.m_clusterNum

theorem Init_config (RAND_MAX : Int) (rand : Nat → Int) (km : KMeans bitsT bitsA)
    (data : Int → Int) (N : Int) :
    (km.Init RAND_MAX rand data N).m_clusterNum = km.m_clusterNum ∧
    (km.Init RAND_MAX rand data N).m_dimNum = km.m_dimNum ∧
    (km.Init RAND_MAX rand data N).m_maxIterNum = km.m_maxIterNum ∧
    (km.Init RAND_MAX rand data N).m_endError = km.m_endError ∧
    (km.Init RAND_MAX rand data N).m_initMode = km.m_initMode := by
  by_cases h1 : km.m_initMode = InitManual
  · simp [KMeans.Init, h1]
  · by_cases h2 : km.m_initMode = InitRandom
    · rw [Init_random_eq RAND_MAX rand km data N h2]
      simp
    · rw [Init_uniform_eq RAND_MAX rand km data N h1 h2]
      simp

/-! ## The loop of `Cluster` -/

theorem body_config (sqrt : ℚ → ℚ) (data : Int → Int) (N : Int) (s : LoopState bitsT bitsA) :
    (s.body sqrt data N).km.m_clusterNum = s.km.m_clusterNum ∧
    (s.body sqrt data N).km.m_dimNum = s.km.m_dimNum ∧
    (s.body sqrt data N).km.m_maxIterNum = s.km.m_maxIterNum ∧
    (s.body sqrt data N).km.m_endError = s.km.m_endError ∧
    (s.body sqrt data N).iterNum = s.iterNum + 1 := by
  simp [LoopState.body, reestimate_eq]

theorem run_some (sqrt : ℚ → ℚ) (data : Int → Int) (N : Int) (fuel : Nat) :
    ∀ s : LoopState bitsT bitsA, 1 ≤ fuel → s.km.m_maxIterNum ≤ s.iterNum + (fuel : Int) →
      ∃ s', LoopState.run sqrt data N fuel s = some s' := by
  induction fuel with
  | zero => intro s h; omega
  | succ f ih =>
    intro s _ hM
    unfold LoopState.run
    simp only
    by_cases hstop : (s.body sqrt data N).stop = true
    · rw [if_pos hstop]; exact ⟨_, rfl⟩
    · rw [if_neg hstop]
      obtain ⟨-, -, hmax, -, hit⟩ := body_config sqrt data N s
      have hns : ¬ ((s.body sqrt data N).iterNum ≥ (s.body sqrt data N).km.m_maxIterNum ∨
          (s.body sqrt data N).unchanged ≥ 3) := by
        simpa [LoopState.stop] using hstop
      have hlt : (s.body sqrt data N).iterNum < (s.body sqrt data N).km.m_maxIterNum := by
        by_contra hc
        exact hns (Or.inl (not_lt.mp hc))
      rw [hmax, hit] at hlt
      push_cast at hM
      apply ih
      · omega
      · rw [hmax, hit]; omega

theorem run_config (sqrt : ℚ → ℚ) (data : Int → Int) (N : Int) (fuel : Nat) :
    ∀ s s' : LoopState bitsT bitsA, LoopState.run sqrt data N fuel s = some s' →
      s'.km.m_clusterNum = s.km.m_clusterNum ∧ s'.km.m_dimNum = s.km.m_dimNum := by
  induction fuel with
  | zero => intro s s' h; simp [LoopState.run] at h
  | succ f ih =>
    intro s s' h
    unfold LoopState.run at h
    simp only at h
    obtain ⟨hK, hD, -, -, -⟩ := body_config sqrt data N s
    by_cases hstop : (s.body sqrt data N).stop = true
    · rw [if_pos hstop] at h
      cases h
      exact ⟨hK, hD⟩
    · rw [if_neg hstop] at h
      obtain ⟨h1, h2⟩ := ih _ _ h
      exact ⟨h1.trans hK, h2.trans hD⟩

/-! ## The final labelling pass -/

theorem emitLoop_eq (sqrt : ℚ → ℚ) (km : KMeans bitsT bitsA) (data : Int → Int) (l0 : Int)
    (Label : Nat → Int) (hK : 0 < km.m_clusterNum) (n : Nat) :
    ((List.range n).foldl
      (fun (acc : Int × (Nat → Int)) (i : Nat) =>
        let r := km.GetLabel sqrt (km.sample data (i : Int)) acc.1
        (r.2, Function.update acc.2 i r.2))
      (l0, Label)).2 = fun j => if j < n then km.labelOf sqrt data j else Label j := by
  induction n with
  | zero => simp
  | succ n ih =>
    rw [List.range_succ, List.foldl_append]
    simp only [List.foldl_cons, List.foldl_nil]
    rw [ih]
    funext j
    rw [GetLabel_indep sqrt km _ _ (-1) hK]
    by_cases hj : j = n
    · subst hj; simp [KMeans.labelOf]
    · have : (j < n + 1) = (j < n) := by
        apply propext; constructor <;> intro h <;> omega
      simp [Function.update, hj, this]

theorem emitLabels_eq (sqrt : ℚ → ℚ) (km : KMeans bitsT bitsA) (data : Int → Int) (N : Int)
    (l0 : Int) (Label : Nat → Int) (hK : 0 < km.m_clusterNum) :
    km.emitLabels sqrt data N l0 Label =
      fun j => if j < N.toNat then km.labelOf sqrt data j else Label j :=
  emitLoop_eq sqrt km data l0 Label hK N.toNat

/-! ## `Cluster` returns -/

theorem Cluster_ok (sqrt : ℚ → ℚ) (RAND_MAX : Int) (rand : Nat → Int)
    (km : KMeans bitsT bitsA) (data : Int → Int) (N : Int) (Label : Option (Nat → Int))
    (hN : (km.m_clusterNum : Int) ≤ N) :
    ∃ s : LoopState bitsT bitsA,
      km.Cluster sqrt RAND_MAX rand data N Label =
        Except.ok (s.km, Label.map (fun L => s.km.emitLabels sqrt data N s.label L)) ∧
      s.km.m_clusterNum = km.m_clusterNum ∧ s.km.m_dimNum = km.m_dimNum := by
  obtain ⟨hK0, hD0, -, -, -⟩ := Init_config RAND_MAX rand km data N
  obtain ⟨s, hs⟩ := run_some sqrt data N (max 1 (km.Init RAND_MAX rand data N).m_maxIterNum).toNat
    { km := km.Init RAND_MAX rand data N, label := -1, iterNum := 0, lastCost := some 0,
      currCost := some 0, unchanged := 0 }
    (by omega) (by simp only; omega)
  obtain ⟨hK, hD⟩ := run_config sqrt data N _ _ _ hs
  refine ⟨s, ?_, hK.trans hK0, hD.trans hD0⟩
  unfold KMeans.Cluster
  simp only [ge_iff_le, hN, not_true_eq_false, if_false]
  rw [hs]

theorem Cluster_eq_run (sqrt : ℚ → ℚ) (RAND_MAX : Int) (rand : Nat → Int)
    (km : KMeans bitsT bitsA) (data : Int → Int) (N : Int) (Label : Option (Nat → Int))
    (hN : (km.m_clusterNum : Int) ≤ N) :
    km.Cluster sqrt RAND_MAX rand data N Label =
      match LoopState.run sqrt data N
          (max 1 (km.loopStart RAND_MAX rand data N).km.m_maxIterNum).toNat
          (km.loopStart RAND_MAX rand data N) with
      | none => Except.error Fault.fuel
      | some s => Except.ok (s.km, Label.map (fun L => s.km.emitLabels sqrt data N s.label L)) := by
  unfold KMeans.Cluster KMeans.loopStart
  simp only [ge_iff_le, hN, not_true_eq_false, if_false]

theorem lt_two_pow_bitLength (fuel : Nat) :
    ∀ n : Nat, n ≤ fuel → n < 2 ^ bitLength fuel n := by
  induction fuel with
  | zero =>
    intro n h
    have : n = 0 := by omega
    subst this
    simp [bitLength]
  | succ f ih =>
    intro n h
    unfold bitLength
    by_cases h0 : n = 0
    · rw [if_pos h0, h0]; simp
    · rw [if_neg h0, pow_succ]
      have := ih (n / 2) (by omega)
      omega

theorem sqrtDigits_spec (n : Nat) (k : Nat) :
    ∀ r : Nat, r * r ≤ n → n < (r + 2 ^ k) * (r + 2 ^ k) →
      sqrtDigits n k r * sqrtDigits n k r ≤ n ∧
        n < (sqrtDigits n k r + 1) * (sqrtDigits n k r + 1) := by
  induction k with
  | zero =>
    intro r h1 h2
    simp only [pow_zero] at h2
    exact ⟨h1, h2⟩
  | succ k ih =>
    intro r h1 h2
    unfold sqrtDigits
    by_cases h : (r + 2 ^ k) * (r + 2 ^ k) ≤ n
    · rw [if_pos h]
      apply ih _ h
      have : r + 2 ^ k + 2 ^ k = r + 2 ^ (k + 1) := by rw [pow_succ]; omega
      rw [this]; exact h2
    · rw [if_neg h]
      exact ih r h1 (by omega)

theorem natSqrt_eq (n : Nat) : natSqrt n = Nat.sqrt n := by
  apply Nat.eq_sqrt.mpr
  unfold natSqrt
  apply sqrtDigits_spec
  · simp
  · have h := lt_two_pow_bitLength n n (le_refl n)
    have h1 : 1 ≤ 2 ^ bitLength n n := Nat.one_le_two_pow
    rw [zero_add]
    calc n < 2 ^ bitLength n n := h
      _ = 2 ^ bitLength n n * 1 := (mul_one _).symm
      _ ≤ 2 ^ bitLength n n * 2 ^ bitLength n n := Nat.mul_le_mul_left _ h1

theorem demoSqrt_nonneg (q : ℚ) : 0 ≤ demoSqrt q := by
  unfold demoSqrt; exact Nat.cast_nonneg _

theorem clipInt_spec (bits : Nat) (a : Int) :
    (minOf bits ≤ clipInt bits a ∧ clipInt bits a ≤ maxOf bits) ∧
    (a < minOf bits → clipInt bits a = minOf bits) ∧
    (a > maxOf bits → clipInt bits a = maxOf bits) ∧
    (minOf bits ≤ a → a ≤ maxOf bits → clipInt bits a = a) := by
  have hp := half_pos bits
  have hmm : minOf bits ≤ maxOf bits := by unfold minOf maxOf; omega
  unfold clipInt clipT
  refine ⟨?_, ?_, ?_, ?_⟩
  · split
    · exact ⟨le_refl _, hmm⟩
    · split
      · exact ⟨hmm, le_refl _⟩
      · exact wrap_range bits a
  · intro h; rw [if_pos h]
  · intro h; rw [if_neg (by omega), if_pos h]
  · intro h1 h2
    rw [if_neg (by omega), if_neg (by omega)]
    exact wrap_of_range bits a h1 h2

/-! ## Seeding indices when no `int` operation overflows -/

theorem selectUniform_exact (N K i : Int) (hi : 0 ≤ i) (hN : 0 ≤ N) (hK : 0 ≤ K)
    (h : i * N ≤ 2147483647) : selectUniform N K i = i * N / K := by
  unfold selectUniform
  have h0 : 0 ≤ i * N := Int.mul_nonneg hi hN
  rw [wrap32_of_range _ (by omega) h, Int.tdiv_eq_ediv h0 hK]

theorem selectRandom_exact (RAND_MAX L i r : Int) (hL : 1 ≤ L) (hi : 0 ≤ i) (hr0 : 0 ≤ r)
    (hr : r ≤ RAND_MAX) (hpos : 0 < RAND_MAX) (h1 : (L - 1) * r ≤ 2147483647)
    (h2 : L * i + (L - 1) ≤ 2147483647) :
    selectRandom RAND_MAX L i r = L * i + (L - 1) * r / RAND_MAX ∧
    L * i ≤ selectRandom RAND_MAX L i r ∧ selectRandom RAND_MAX L i r ≤ L * i + L - 1 := by
  have hLi : 0 ≤ L * i := Int.mul_nonneg (by omega) hi
  have hp : 0 ≤ (L - 1) * r := Int.mul_nonneg (by omega) hr0
  have hq0 : 0 ≤ (L - 1) * r / RAND_MAX := Int.ediv_nonneg hp (le_of_lt hpos)
  have hq1 : (L - 1) * r / RAND_MAX ≤ L - 1 := by
    apply Int.ediv_le_of_le_mul hpos
    exact Int.mul_le_mul_of_nonneg_left hr (by omega)
  have hsel : selectRandom RAND_MAX L i r = L * i + (L - 1) * r / RAND_MAX := by
    unfold selectRandom
    rw [wrap32_of_range (L - 1) (by omega) (by omega), wrap32_of_range _ (by omega) h1,
      wrap32_of_range (L * i) (by omega) (by omega), Int.tdiv_eq_ediv hp (le_of_lt hpos),
      wrap32_of_range _ (by omega) (by omega)]
  rw [hsel]
  exact ⟨rfl, by omega, by omega⟩

/-! ## The update phase for an accumulator wider than 32 bits -/

theorem update_is_clipped_mean (sqrt : ℚ → ℚ) (data : Int → Int) (N : Int)
    (s : LoopState bitsT bitsA) (c d : Nat) (hA : 32 < bitsA)
    (hc : c < s.km.m_clusterNum) (hd : d < s.km.m_dimNum) (hN : N ≤ 2147483647)
    (hne : (s.km.assigned sqrt data N.toNat (c : Int)).length ≠ 0) :
    (s.body sqrt data N).km.GetMean (c : Int) d =
      clipInt bitsT (Int.tdiv
        (wrap bitsA ((s.km.assigned sqrt data N.toNat (c : Int)).map
          (fun i => s.km.sample data (i : Int) d)).sum)
        ((s.km.assigned sqrt data N.toNat (c : Int)).length : Int)) := by
  have hK : 0 < s.km.m_clusterNum := by omega
  have hlen := assigned_length_le sqrt s.km data N.toNat (c : Int)
  have hcnt : (s.km.classification sqrt data N s.label).counts (c : Int) =
      (s.km.assigned sqrt data N.toNat (c : Int)).length := by
    rw [classification_counts sqrt s.km data N s.label hK]
    apply Nat.mod_eq_of_lt
    omega
  have hpos : (s.km.classification sqrt data N s.label).counts (c : Int) > 0 := by
    rw [hcnt]; omega
  have hcond : 0 ≤ (c : Int) ∧ (c : Int) < (s.km.m_clusterNum : Int) ∧
      (s.km.classification sqrt data N s.label).counts (c : Int) > 0 ∧ d < s.km.m_dimNum :=
    ⟨by omega, by omega, hpos, hd⟩
  simp only [KMeans.GetMean, LoopState.body, reestimate_eq, reestimated]
  rw [if_pos hcond, hcnt, classification_next_means sqrt s.km data N s.label hK, if_pos hd]
  unfold divCount
  rw [if_pos hA]

/-! ## Properties of the specification -/

/-- C1: for every input with N >= K >= 1 and a supplied label buffer, `Cluster`
returns, and on return every `Label[i]`, `0 <= i < N`, satisfies
`0 <= Label[i] < K`, whatever the init mode, `maxIter` and `endError`. -/
theorem C1_labels_in_range (sqrt : ℚ → ℚ) (RAND_MAX : Int) (rand : Nat → Int)
    (km : KMeans bitsT bitsA) (data : Int → Int) (N : Int) (Label : Nat → Int)
    (hK : 1 ≤ km.m_clusterNum) (hN : (km.m_clusterNum : Int) ≤ N) :
    ∃ (km' : KMeans bitsT bitsA) (Label' : Nat → Int),
      km.Cluster sqrt RAND_MAX rand data N (some Label) = Except.ok (km', some Label') ∧
      ∀ i : Nat, (i : Int) < N → 0 ≤ Label' i ∧ Label' i < (km.m_clusterNum : Int) := by
  obtain ⟨s, hs, hKs, -⟩ := Cluster_ok sqrt RAND_MAX rand km data N (some Label) hN
  refine ⟨s.km, s.km.emitLabels sqrt data N s.label Label, hs, ?_⟩
  intro i hi
  have hKpos : 0 < s.km.m_clusterNum := by omega
  rw [emitLabels_eq sqrt s.km data N s.label Label hKpos]
  have hlt : i < N.toNat := by omega
  simp only [hlt, if_true]
  have h := GetLabel_range sqrt s.km (s.km.sample data (i : Int)) (-1) hKpos
  rw [hKs] at h
  exact h

theorem C1_labels_in_range_witness :
    1 ≤ demoEngine.m_clusterNum ∧ (demoEngine.m_clusterNum : Int) ≤ 6 ∧
    ∃ (km' : KMeans 32 64) (Label' : Nat → Int),
      demoEngine.Cluster demoSqrt 2147483647 (fun _ => 0) demoData 6 (some (fun _ => -1)) =
        Except.ok (km', some Label') ∧
      ∀ i : Nat, (i : Int) < 6 → 0 ≤ Label' i ∧ Label' i < (demoEngine.m_clusterNum : Int) :=
  ⟨by decide, by decide,
    C1_labels_in_range demoSqrt 2147483647 (fun _ => 0) demoEngine demoData 6 (fun _ => -1)
      (by decide) (by decide)⟩

/-- C2, at the failing input: `KMeans<int32_t, int64_t>(1, 2)` with Uniform
init and the defaults `maxIter = 100`, `endError = 0.001`, on the two points
`[50000, 0]` (`N = 2`, `D = 1`).  `Cluster` returns with the centroids `[50000]`
and `[0]` and the labels `[0, 0]`.  Point 1, the value `0`, lies at distance 0
from the final centroid 1, so reassigning it to its nearest final centroid gives
label 1; the emitted label is 0.  Its distance to centroid 0 is NaN, since
`(0 - 50000) * (0 - 50000)` is an `int` product that wraps to a negative value
(the defect of C8); `GetLabel` takes that NaN first and never replaces it. -/
theorem C2_label_not_nearest_centroid :
    ∃ (km' : KMeans 32 64) (Label' : Nat → Int),
      demoEngine.Cluster demoSqrt 2147483647 (fun _ => 0) farData 2 (some (fun _ => -1)) =
        Except.ok (km', some Label') ∧
      km'.GetMean 0 0 = 50000 ∧ km'.GetMean 1 0 = 0 ∧
      Label' 0 = 0 ∧ Label' 1 = 0 ∧
      km'.sample farData 1 0 = 0 ∧
      km'.CalcDistance demoSqrt (km'.sample farData 1) (km'.GetMean 1) = some 0 ∧
      km'.CalcDistance demoSqrt (km'.sample farData 1) (km'.GetMean 0) = none := by
  have hC := Cluster_eq_run demoSqrt 2147483647 (fun _ => 0) demoEngine farData 2
    (some (fun _ => -1)) (by decide)
  have hfuel : (max 1 (demoEngine.loopStart 2147483647 (fun _ => 0) farData 2).km.m_maxIterNum).toNat
      = 100 := by decide
  rw [hfuel] at hC
  have hv : (LoopState.run demoSqrt farData 2 100
      (demoEngine.loopStart 2147483647 (fun _ => 0) farData 2)).map
        (fun s => ([s.km.GetMean 0 0, s.km.GetMean 1 0,
          s.km.emitLabels demoSqrt farData 2 s.label (fun _ => -1) 0,
          s.km.emitLabels demoSqrt farData 2 s.label (fun _ => -1) 1,
          s.km.sample farData 1 0],
          [s.km.CalcDistance demoSqrt (s.km.sample farData 1) (s.km.GetMean 1),
          s.km.CalcDistance demoSqrt (s.km.sample farData 1) (s.km.GetMean 0)])) =
      some ([50000, 0, 0, 0, 0], [some 0, none]) := by decide!
  obtain ⟨r, hr⟩ : ∃ r, LoopState.run demoSqrt farData 2 100
      (demoEngine.loopStart 2147483647 (fun _ => 0) farData 2) = some r :=
    run_some demoSqrt farData 2 100 _ (by omega) (by decide)
  rw [hr] at hC hv
  simp only [Option.map, Option.some.injEq, Prod.mk.injEq, List.cons.injEq, and_true] at hC hv
  obtain ⟨⟨h1, h2, h3, h4, h5⟩, h6, h7⟩ := hv
  exact ⟨_, _, hC, h1, h2, h3, h4, h5, h6, h7⟩

/-- C3, at the failing input: in `KMeans<int16_t, int32_t>` (signed storage, a
wider signed accumulator) with one centroid and the points `[-3, -3]`, both
points are assigned to cluster 0, the sum `S` is `-6` and the count is `2`, so
`clipT(S / n_c)` with a division truncating toward zero is `-3`; the iteration
stores `32767`, because `next_means[i][d] /= counts[i]` divides by a
`uint32_t` and is carried out in `unsigned int`. -/
theorem C3_unsigned_division_of_negative_sum :
    shortState.km.assigned demoSqrt shortData (2 : Int).toNat 0 = [0, 1] ∧
    ((shortState.km.assigned demoSqrt shortData (2 : Int).toNat 0).map
      (fun i => shortState.km.sample shortData (i : Int) 0)).sum = -6 ∧
    clipInt 16 (Int.tdiv (-6) 2) = -3 ∧
    (shortState.body demoSqrt shortData 2).km.GetMean 0 0 = 32767 := by
  refine ⟨by decide!, by decide!, by decide!, by decide!⟩

/-- C4: in every iteration of the loop of `Cluster`, for every cluster `c` to
which the assignment phase of that iteration assigns no point, the count of `c`
is zero and every component of centroid `c` after the update phase equals its
value before the iteration; the division sits under the test `counts[i] > 0`
and is not reached. -/
theorem C4_empty_cluster_unchanged (sqrt : ℚ → ℚ) (data : Int → Int) (N : Int)
    (s : LoopState bitsT bitsA) (c : Nat) (hc : c < s.km.m_clusterNum)
    (hnone : s.km.assigned sqrt data N.toNat (c : Int) = []) (d : Nat) :
    (s.km.classification sqrt data N s.label).counts (c : Int) = 0 ∧
    (s.body sqrt data N).km.GetMean (c : Int) d = s.km.GetMean (c : Int) d := by
  have hK : 0 < s.km.m_clusterNum := by omega
  have hcnt : (s.km.classification sqrt data N s.label).counts (c : Int) = 0 := by
    rw [classification_counts sqrt s.km data N s.label hK, hnone]
    rfl
  refine ⟨hcnt, ?_⟩
  simp only [KMeans.GetMean, LoopState.body, reestimate_eq, reestimated]
  rw [if_neg]
  rintro ⟨-, -, h, -⟩
  omega

theorem C4_empty_cluster_unchanged_witness :
    1 < negState.km.m_clusterNum ∧
    negState.km.assigned demoSqrt negData (2 : Int).toNat ((1 : Nat) : Int) = [] ∧
    (negState.km.classification demoSqrt negData 2 negState.label).counts ((1 : Nat) : Int) = 0 ∧
    (negState.body demoSqrt negData 2).km.GetMean ((1 : Nat) : Int) 0 =
      negState.km.GetMean ((1 : Nat) : Int) 0 :=
  ⟨by decide, by decide!,
    C4_empty_cluster_unchanged demoSqrt negData 2 negState 1 (by decide) (by decide!) 0⟩

/-- C5, at the failing input: in `KMeans<int32_t, int64_t>` with `D = 1`, the
centroids `[50000]` and `[1]` and the point `x = [0]`, the product
`(0 - 50000) * (0 - 50000)` is an `int` product that wraps to `-1794967296` (the
defect of C8), so the distance to centroid 0 is NaN.  `dist == -1` takes it as
the first value and `sqrt(1) < NaN` is false: `GetLabel` returns NaN and leaves
0 in the label, although centroid 1, at distance `sqrt(1)`, is the one at
minimal distance. -/
theorem C5_GetLabel_keeps_first_NaN (sqrt : ℚ → ℚ) (l : Int) :
    farEngine.sqDist (fun _ => 0) (farEngine.GetMean 0) = -1794967296 ∧
    farEngine.CalcDistance sqrt (fun _ => 0) (farEngine.GetMean 0) = none ∧
    farEngine.CalcDistance sqrt (fun _ => 0) (farEngine.GetMean 1) = some (sqrt 1) ∧
    farEngine.GetLabel sqrt (fun _ => 0) l = (none, 0) := by
  have h0 : farEngine.CalcDistance sqrt (fun _ => 0) (farEngine.GetMean 0) = none := by
    simp [KMeans.CalcDistance, KMeans.GetMean, farEngine, List.range_succ, wrap, half]
  have h1 : farEngine.CalcDistance sqrt (fun _ => 0) (farEngine.GetMean 1) = some (sqrt 1) := by
    simp [KMeans.CalcDistance, KMeans.GetMean, farEngine, List.range_succ, wrap, half]
  refine ⟨?_, h0, h1, ?_⟩
  · simp [KMeans.sqDist, KMeans.GetMean, farEngine, List.range_succ, wrap, half]
  · have hK : farEngine.m_clusterNum = 2 := rfl
    have hm0 : farEngine.m_means ((0 : Nat) : Int) = farEngine.GetMean 0 := rfl
    have hm1 : farEngine.m_means ((1 : Nat) : Int) = farEngine.GetMean 1 := rfl
    have h0' : farEngine.CalcDistance sqrt (fun _ => 0) (farEngine.m_means 0) = none := h0
    have h1' : farEngine.CalcDistance sqrt (fun _ => 0) (farEngine.m_means 1) = some (sqrt 1) :=
      h1
    unfold KMeans.GetLabel
    rw [hK]
    simp only [List.range_succ, List.range_zero, List.nil_append, List.cons_append,
      List.foldl_cons, List.foldl_nil, hm0, hm1, h0, h1]
    simp [labelStep, ltD, h0', h1']

/-- C6: for every accumulator value `a`, `clipT(a)` lies in the closed range
`[min_T, max_T]` of the storage type: it is `min_T` when `a < min_T`, `max_T`
when `a > max_T`, and `a` converted to `T` otherwise; and every centroid
component written by the update phase of `Cluster` (cluster `c < K` with a
non-zero count, `d < D`) is a value of `clipT`, hence within that range whatever
the accumulated mean.  Signed integer `T` and `A` of any widths, `int32_t` and
`int64_t` among them. -/
theorem C6_clipT_in_range (a : Int) (km : KMeans bitsT bitsA) (b : Buffers) (c d : Nat)
    (hc : c < km.m_clusterNum) (hd : d < km.m_dimNum) (hcnt : b.counts (c : Int) > 0) :
    ((minOf bitsT ≤ clipInt bitsT a ∧ clipInt bitsT a ≤ maxOf bitsT) ∧
      (a < minOf bitsT → clipInt bitsT a = minOf bitsT) ∧
      (a > maxOf bitsT → clipInt bitsT a = maxOf bitsT) ∧
      (minOf bitsT ≤ a → a ≤ maxOf bitsT → clipInt bitsT a = a)) ∧
    (km.reestimate b).GetMean (c : Int) d =
      clipInt bitsT (divCount bitsA (b.next_means (c : Int) d) (b.counts (c : Int))) ∧
    minOf bitsT ≤ (km.reestimate b).GetMean (c : Int) d ∧
    (km.reestimate b).GetMean (c : Int) d ≤ maxOf bitsT := by
  have hcond : 0 ≤ (c : Int) ∧ (c : Int) < (km.m_clusterNum : Int) ∧
      b.counts (c : Int) > 0 ∧ d < km.m_dimNum := ⟨by omega, by omega, hcnt, hd⟩
  have hmean : (km.reestimate b).GetMean (c : Int) d =
      clipInt bitsT (divCount bitsA (b.next_means (c : Int) d) (b.counts (c : Int))) := by
    simp only [KMeans.GetMean, reestimate_eq, reestimated]
    rw [if_pos hcond]
  refine ⟨clipInt_spec bitsT a, hmean, ?_, ?_⟩
  · rw [hmean]; exact (clipInt_spec bitsT _).1.1
  · rw [hmean]; exact (clipInt_spec bitsT _).1.2

theorem C6_clipT_in_range_witness :
    0 < demoEngine.m_clusterNum ∧ 0 < demoEngine.m_dimNum ∧
    wideBuffers.counts ((0 : Nat) : Int) > 0 ∧
    divCount 64 (wideBuffers.next_means ((0 : Nat) : Int) 0)
      (wideBuffers.counts ((0 : Nat) : Int)) = 5000000000 ∧
    (demoEngine.reestimate wideBuffers).GetMean ((0 : Nat) : Int) 0 = 2147483647 ∧
    minOf 32 ≤ (demoEngine.reestimate wideBuffers).GetMean ((0 : Nat) : Int) 0 ∧
    (demoEngine.reestimate wideBuffers).GetMean ((0 : Nat) : Int) 0 ≤ maxOf 32 :=
  have h := C6_clipT_in_range 5000000000 demoEngine wideBuffers 0 0
    (by decide) (by decide) (by decide)
  ⟨by decide, by decide, by decide, by decide, by rw [h.2.1]; decide, h.2.2.1, h.2.2.2⟩

/-- C7, at the failing input: with the limits of `float`, `-5` is representable
(`-FLT_MAX <= -5 <= FLT_MAX`), yet `clipT(-5)` is
`numeric_limits<float>::min()`, the smallest positive normal value, whatever
`static_cast<T>` does: the first test `a < numeric_limits<T>::min()` holds for
every negative `a`. -/
theorem C7_clipT_float_negative :
    -FLT_MAX ≤ (-5 : ℚ) ∧ (-5 : ℚ) ≤ FLT_MAX ∧ 0 < FLT_MIN ∧
    ∀ cast : ℚ → ℚ, clipT FLT_MIN FLT_MAX cast (-5) = FLT_MIN := by
  refine ⟨by norm_num [FLT_MAX], by norm_num [FLT_MAX], by norm_num [FLT_MIN], ?_⟩
  intro cast
  have h : (-5 : ℚ) < FLT_MIN := by norm_num [FLT_MIN]
  simp [clipT, h]

/-- C8, at the failing input: for `T = int32_t`, `D = 1`, `x = [0]` and
`u = [50000]`, the exact sum of squares is `2500000000`, but the product
`(x[0] - u[0]) * (x[0] - u[0])` is an `int` product and wraps to
`-1794967296`: that is the value `CalcDistance` hands to `sqrt`, and it returns
NaN, not `sqrt(2500000000) = 50000`. -/
theorem C8_CalcDistance_int_overflow (sqrt : ℚ → ℚ) :
    ((0 : Int) - 50000) * ((0 : Int) - 50000) = 2500000000 ∧
    demoEngine.sqDist (fun _ => 0) (fun _ => 50000) = -1794967296 ∧
    demoEngine.CalcDistance sqrt (fun _ => 0) (fun _ => 50000) = none := by
  refine ⟨by decide, ?_, ?_⟩
  · simp [KMeans.sqDist, demoEngine, List.range_succ, wrap, half]
  · simp [KMeans.CalcDistance, demoEngine, List.range_succ, wrap, half]

/-- C9, at the failing input: in Uniform mode with `N = 1048576`, `K = 2049`,
`D = 1`, the claimed index for centroid 2048 is
`floor(2048 * 1048576 / 2049) = 1048064`, but `i * size` is an `int` product,
`2048 * 1048576 = 2^31` wraps, and `Init` copies the value at offset
`-1048064`, before the start of the buffer. -/
theorem C9_uniform_index_overflow (RAND_MAX : Int) (rand : Nat → Int) :
    (2048 * 1048576 : Int) / 2049 = 1048064 ∧
    selectUniform 1048576 2049 2048 = -1048064 ∧
    (bigEngine.Init RAND_MAX rand offsetData 1048576).GetMean 2048 0 = -1048064 := by
  refine ⟨by decide, by decide, ?_⟩
  rw [Init_uniform_eq _ _ _ _ _ (by decide) (by decide)]
  decide

/-- C10, at the failing input: in Random mode with `N = 3`, `K = 1`, `D = 1`,
`RAND_MAX = 2^31 - 1` and `rand()` returning `2^30`, the claimed index is
`3*0 + floor(2 * 2^30 / (2^31 - 1)) = 1`, but `(inteval - 1) * rand()` is an
`int` product, `2 * 2^30 = 2^31` wraps, the selected index is `-1`, and `Init`
copies the value at offset `-1`, before the start of the buffer. -/
theorem C10_random_index_overflow :
    (3 : Int) * 0 + (3 - 1) * 1073741824 / 2147483647 = 1 ∧
    selectRandom 2147483647 (Int.tdiv 3 1) 0 1073741824 = -1 ∧
    (tinyEngine.Init 2147483647 (fun _ => 1073741824) offsetData 3).GetMean 0 0 = -1 := by
  refine ⟨by decide, by decide, by decide!⟩

/-! ## Setters, construction and the precondition of `Cluster` -/

/-- C11: in mode `InitManual`, `Init(data, N)` returns the engine as it is, for
every `data` and `N`, so the loop of `Cluster` starts from the caller's
centroids and its first assignment phase is computed from them; and
`SetMean(i, u)` with `0 <= i < K` makes the `D` components of centroid `i`
those of `u`, and leaves every other centroid and `m_dimNum`, `m_clusterNum`,
`m_initMode`, `m_maxIterNum` and `m_endError` as they were. -/
theorem C11_manual_init_and_SetMean (sqrt : ℚ → ℚ) (RAND_MAX : Int) (rand : Nat → Int)
    (km : KMeans bitsT bitsA) (data : Int → Int) (N : Int) (i : Nat) (u : Nat → Int)
    (hmode : km.m_initMode = InitManual) (_hi : i < km.m_clusterNum) :
    km.Init RAND_MAX rand data N = km ∧
    (km.loopStart RAND_MAX rand data N).km = km ∧
    (km.loopStart RAND_MAX rand data N).km.classification sqrt data N
        (km.loopStart RAND_MAX rand data N).label = km.classification sqrt data N (-1) ∧
    (∀ d, d < km.m_dimNum → (km.SetMean (i : Int) u).GetMean (i : Int) d = u d) ∧
    (∀ (c : Int) (d : Nat), c ≠ (i : Int) → (km.SetMean (i : Int) u).GetMean c d = km.GetMean c d) ∧
    (km.SetMean (i : Int) u).m_dimNum = km.m_dimNum ∧
    (km.SetMean (i : Int) u).m_clusterNum = km.m_clusterNum ∧
    (km.SetMean (i : Int) u).m_initMode = km.m_initMode ∧
    (km.SetMean (i : Int) u).m_maxIterNum = km.m_maxIterNum ∧
    (km.SetMean (i : Int) u).m_endError = km.m_endError := by
  have hInit : km.Init RAND_MAX rand data N = km := by
    unfold KMeans.Init
    rw [if_pos hmode]
  refine ⟨hInit, ?_, ?_, ?_, ?_, rfl, rfl, rfl, rfl, rfl⟩
  · simp only [KMeans.loopStart, hInit]
  · simp only [KMeans.loopStart, hInit]
  · intro d hd
    simp [KMeans.SetMean, KMeans.GetMean, KMeans.copyRow, hd]
  · intro c d hc
    simp [KMeans.SetMean, KMeans.GetMean, KMeans.copyRow, hc]

theorem C11_manual_init_and_SetMean_witness :
    manualEngine.m_initMode = InitManual ∧ 1 < manualEngine.m_clusterNum ∧
    manualEngine.Init 2147483647 (fun _ => 0) demoData 6 = manualEngine ∧
    (manualEngine.SetMean ((1 : Nat) : Int) (fun _ => 7)).m_maxIterNum =
      manualEngine.m_maxIterNum :=
  have h := C11_manual_init_and_SetMean demoSqrt 2147483647 (fun _ => 0) manualEngine demoData 6
    1 (fun _ => 7) (by decide) (by decide)
  ⟨by decide, by decide, h.1, h.2.2.2.2.2.2.2.2.1⟩

/-- C12: for every input with N < K, `Cluster(data, N, Label)` stops at its
`assert(size >= m_clusterNum)`, in every init mode; the `assert` precedes
`Init`, so that the engine and the label buffer at the point of failure are
those the caller passed: every centroid has its value from before the call and
no label has been written. -/
theorem C12_precondition_failure (sqrt : ℚ → ℚ) (RAND_MAX : Int) (rand : Nat → Int)
    (km : KMeans bitsT bitsA) (data : Int → Int) (N : Int) (Label : Option (Nat → Int))
    (hlt : N < (km.m_clusterNum : Int)) :
    km.Cluster sqrt RAND_MAX rand data N Label = Except.error (Fault.assertion km Label) := by
  unfold KMeans.Cluster
  have hn : ¬ (N ≥ (km.m_clusterNum : Int)) := by omega
  simp only [hn, not_false_eq_true, if_true]

theorem C12_precondition_failure_witness :
    (1 : Int) < (demoEngine.m_clusterNum : Int) ∧
    demoEngine.GetMean 0 0 = 0 ∧
    (demoEngine.Init 2147483647 (fun _ => 0) demoData 1).GetMean 0 0 = 1 ∧
    demoEngine.Cluster demoSqrt 2147483647 (fun _ => 0) demoData 1 (some (fun _ => -1)) =
      Except.error (Fault.assertion demoEngine (some (fun _ => -1))) :=
  ⟨by decide, by decide, by decide!,
    C12_precondition_failure demoSqrt 2147483647 (fun _ => 0) demoEngine demoData 1
      (some (fun _ => -1)) (by decide)⟩

/-- C15, as the code has it: the constructor tests neither `dimNum` nor
`clusterNum`; for every D >= 0 and K >= 0, `D = 0` and `K = 0` included, it
succeeds and yields K centroids of D components, all equal to zero, with init
mode `InitRandom`, `maxIter` 100 and `endError` 0.001 (the `double` that the
literal denotes). -/
theorem C15_construct_unchecked (dimNum clusterNum : Int) (hD : 0 ≤ dimNum)
    (hK : 0 ≤ clusterNum) :
    ∃ km : KMeans bitsT bitsA, KMeans.construct bitsT bitsA dimNum clusterNum = some km ∧
      (km.m_dimNum : Int) = dimNum ∧ (km.m_clusterNum : Int) = clusterNum ∧
      (∀ (i : Int) (d : Nat), km.GetMean i d = 0) ∧
      km.m_initMode = InitRandom ∧ km.m_maxIterNum = 100 ∧ km.m_endError = endErrorDefault := by
  refine ⟨{ m_dimNum := dimNum.toNat, m_clusterNum := clusterNum.toNat, m_means := fun _ _ => 0,
            m_initMode := InitRandom, m_maxIterNum := 100, m_endError := endErrorDefault },
    ?_, ?_, ?_, ?_, rfl, rfl, rfl⟩
  · unfold KMeans.construct
    rw [if_neg (by omega), if_neg (by omega)]
  · simp only; omega
  · simp only; omega
  · intro i d; rfl

theorem C15_construct_unchecked_witness :
    (0 : Int) ≤ 3 ∧ (0 : Int) ≤ 2 ∧
    ∃ km : KMeans 32 64, KMeans.construct 32 64 3 2 = some km ∧
      (km.m_dimNum : Int) = 3 ∧ (km.m_clusterNum : Int) = 2 ∧
      (∀ (i : Int) (d : Nat), km.GetMean i d = 0) ∧
      km.m_initMode = InitRandom ∧ km.m_maxIterNum = 100 ∧ km.m_endError = endErrorDefault :=
  ⟨by decide, by decide, C15_construct_unchecked 3 2 (by decide) (by decide)⟩

/-- C15, counterexample: construction with `D = 0` succeeds, and so does
construction with `K = 0`, where a failure is claimed. -/
theorem C15_construct_zero_succeeds :
    (KMeans.construct 32 64 0 1).isSome = true ∧ (KMeans.construct 32 64 1 0).isSome = true ∧
    (KMeans.construct 32 64 0 0).isSome = true := by
  refine ⟨rfl, rfl, rfl⟩

/-! ## The indices chosen by `Init` -/

theorem selectRandom_two (RAND_MAX r : Int) (hpos : 0 < RAND_MAX)
    (hmax : RAND_MAX ≤ 2147483647) (hr0 : 0 ≤ r) (hr : r ≤ RAND_MAX) :
    selectRandom RAND_MAX 2 0 r = if r = RAND_MAX then 1 else 0 := by
  obtain ⟨h, -, -⟩ := selectRandom_exact RAND_MAX 2 0 r (by omega) (by omega) hr0 hr hpos
    (by omega) (by omega)
  rw [h]
  have h1 : ((2 : Int) - 1) * r = r := by omega
  rw [h1]
  by_cases hcase : r = RAND_MAX
  · rw [if_pos hcase, hcase, Int.ediv_self (by omega)]
    omega
  · rw [if_neg hcase, Int.ediv_eq_zero_of_lt hr0 (by omega)]
    omega

/-- C18, at the failing input: in Random mode with interval size `L = 2` and
`RAND_MAX = 2^31 - 1`, of the `2^31` values `r` in `0..RAND_MAX` exactly one,
`RAND_MAX` itself, selects the last offset `1`, and the other `2^31 - 1` all
select offset `0`: the two counts differ by `2^31 - 2`, not by at most one. -/
theorem C18_last_offset_singled_out :
    ((Finset.range 2147483648).filter
      (fun r : Nat => selectRandom 2147483647 2 0 (r : Int) = 1)).card = 1 ∧
    ((Finset.range 2147483648).filter
      (fun r : Nat => selectRandom 2147483647 2 0 (r : Int) = 0)).card = 2147483647 := by
  have key : ∀ r : Nat, r ∈ Finset.range 2147483648 →
      selectRandom 2147483647 2 0 (r : Int) = if r = 2147483647 then 1 else 0 := by
    intro r hr
    have hlt : r < 2147483648 := Finset.mem_range.mp hr
    rw [selectRandom_two 2147483647 (r : Int) (by decide) (by decide) (by omega) (by omega)]
    by_cases h : r = 2147483647
    · subst h; rfl
    · have h' : ¬ ((r : Int) = 2147483647) := by omega
      rw [if_neg h, if_neg h']
  constructor
  · have h1 : (Finset.range 2147483648).filter
        (fun r : Nat => selectRandom 2147483647 2 0 (r : Int) = 1) = {2147483647} := by
      ext r
      simp only [Finset.mem_filter, Finset.mem_singleton]
      constructor
      · rintro ⟨hr, hsel⟩
        rw [key r hr] at hsel
        by_contra hne
        rw [if_neg hne] at hsel
        omega
      · intro h
        subst h
        exact ⟨by simp, by decide⟩
    rw [h1]; rfl
  · have h0 : (Finset.range 2147483648).filter
        (fun r : Nat => selectRandom 2147483647 2 0 (r : Int) = 0) = Finset.range 2147483647 := by
      ext r
      simp only [Finset.mem_filter, Finset.mem_range]
      constructor
      · rintro ⟨hr, hsel⟩
        rw [key r (Finset.mem_range.mpr hr)] at hsel
        by_contra hge
        have : r = 2147483647 := by omega
        rw [if_pos this] at hsel
        omega
      · intro h
        refine ⟨by omega, ?_⟩
        rw [key r (Finset.mem_range.mpr (by omega)), if_neg (by omega)]
    rw [h0, Finset.card_range]

/-- C19, at the failing input: with `RAND_MAX = 2^31 - 1`, `N = 4`, `K = 1`,
`i = 0` and `rand()` returning `2^30`, the product
`(inteval - 1) * rand() = 3 * 2^30` exceeds `INT_MAX`; reduced mod `2^32` it is
`-2^30`, the machine index is `0`, and the exact value
`4*0 + floor(3 * 2^30 / (2^31 - 1))` is `1`. -/
theorem C19_product_overflows :
    (Int.tdiv 4 1 - 1) * 1073741824 = 3221225472 ∧ (2147483647 : Int) < 3221225472 ∧
    wrap32 ((Int.tdiv 4 1 - 1) * 1073741824) = -1073741824 ∧
    selectRandom 2147483647 (Int.tdiv 4 1) 0 1073741824 = 0 ∧
    (4 / 1 : Int) * 0 + (4 / 1 - 1) * 1073741824 / 2147483647 = 1 := by
  refine ⟨by decide, by decide, by decide, by decide, by decide⟩

theorem uniform_index_bounds (N K i : Int) (hK : 1 ≤ K) (hN : K ≤ N) (hi0 : 0 ≤ i)
    (hi : i < K) : 0 ≤ i * N / K ∧ i * N / K < N := by
  have hiN : 0 ≤ i * N := Int.mul_nonneg hi0 (by omega)
  refine ⟨Int.ediv_nonneg hiN (by omega), ?_⟩
  apply Int.ediv_lt_of_lt_mul (by omega)
  have h1 : i * N ≤ (K - 1) * N := Int.mul_le_mul_of_nonneg_right (by omega) (by omega)
  have h2 : (K - 1) * N = N * K - N := by ring
  omega

theorem uniform_index_step (N K i j : Int) (hK : 1 ≤ K) (hN : K ≤ N)
    (hij : i < j) : i * N / K < j * N / K := by
  have h1 : (i + 1) * N ≤ j * N := Int.mul_le_mul_of_nonneg_right (by omega) (by omega)
  have h2 : i * N + 1 * K ≤ (i + 1) * N := by
    have : (i + 1) * N = i * N + N := by ring
    omega
  have h3 : (i * N + 1 * K) / K = i * N / K + 1 := Int.add_mul_ediv_right _ _ (by omega)
  have h4 : (i * N + 1 * K) / K ≤ j * N / K :=
    Int.ediv_le_ediv (by omega) (le_trans h2 h1)
  omega

/-- C20: in Uniform mode, for every N >= K >= 1, when the `int` arithmetic is
exact (the largest product `(K - 1) * N`, and `N * D`, do not exceed `INT_MAX`),
the index selected for cluster `i` is `floor(i*N/K)`; these indices lie in
`[0, N)` and are strictly increasing in `i`, and centroid `i` is read from the
offsets `floor(i*N/K) * D + d`, `d < D`, which lie in `[0, N*D)`: `Init` reads
K pairwise distinct points and nothing past the `N*D` input values. -/
theorem C20_uniform_indices_distinct_in_bounds (RAND_MAX : Int) (rand : Nat → Int)
    (km : KMeans bitsT bitsA) (data : Int → Int) (N : Int)
    (hmode1 : km.m_initMode ≠ InitManual) (hmode2 : km.m_initMode ≠ InitRandom)
    (hK : 1 ≤ km.m_clusterNum) (hN : (km.m_clusterNum : Int) ≤ N)
    (hexact : ((km.m_clusterNum : Int) - 1) * N ≤ 2147483647)
    (hsize : N * (km.m_dimNum : Int) ≤ 2147483647) :
    (∀ i : Nat, i < km.m_clusterNum →
      selectUniform N (km.m_clusterNum : Int) (i : Int) = (i : Int) * N / (km.m_clusterNum : Int) ∧
      0 ≤ selectUniform N (km.m_clusterNum : Int) (i : Int) ∧
      selectUniform N (km.m_clusterNum : Int) (i : Int) < N) ∧
    (∀ i j : Nat, i < j → j < km.m_clusterNum →
      selectUniform N (km.m_clusterNum : Int) (i : Int) <
        selectUniform N (km.m_clusterNum : Int) (j : Int)) ∧
    (∀ i d : Nat, i < km.m_clusterNum → d < km.m_dimNum →
      (km.Init RAND_MAX rand data N).GetMean (i : Int) d =
        data (selectUniform N (km.m_clusterNum : Int) (i : Int) * (km.m_dimNum : Int) + (d : Int)) ∧
      0 ≤ selectUniform N (km.m_clusterNum : Int) (i : Int) * (km.m_dimNum : Int) + (d : Int) ∧
      selectUniform N (km.m_clusterNum : Int) (i : Int) * (km.m_dimNum : Int) + (d : Int) <
        N * (km.m_dimNum : Int)) := by
  have hsel : ∀ i : Nat, i < km.m_clusterNum →
      selectUniform N (km.m_clusterNum : Int) (i : Int) =
        (i : Int) * N / (km.m_clusterNum : Int) := by
    intro i hi
    apply selectUniform_exact N _ _ (by omega) (by omega) (by omega)
    have : (i : Int) * N ≤ ((km.m_clusterNum : Int) - 1) * N :=
      Int.mul_le_mul_of_nonneg_right (by omega) (by omega)
    omega
  have hb : ∀ i : Nat, i < km.m_clusterNum →
      0 ≤ selectUniform N (km.m_clusterNum : Int) (i : Int) ∧
      selectUniform N (km.m_clusterNum : Int) (i : Int) < N := by
    intro i hi
    rw [hsel i hi]
    exact uniform_index_bounds N _ _ (by omega) hN (by omega) (by omega)
  refine ⟨fun i hi => ⟨hsel i hi, hb i hi⟩, ?_, ?_⟩
  · intro i j hij hj
    rw [hsel i (by omega), hsel j hj]
    exact uniform_index_step N _ _ _ (by omega) hN (by omega)
  · intro i d hi hd
    obtain ⟨h0, h1⟩ := hb i hi
    generalize hS : selectUniform N (km.m_clusterNum : Int) (i : Int) = S at h0 h1
    have hD0 : (0 : Int) ≤ (km.m_dimNum : Int) := by omega
    have hSD0 : 0 ≤ S * (km.m_dimNum : Int) := Int.mul_nonneg h0 hD0
    have hSD1 : S * (km.m_dimNum : Int) + (km.m_dimNum : Int) ≤ N * (km.m_dimNum : Int) := by
      have : (S + 1) * (km.m_dimNum : Int) ≤ N * (km.m_dimNum : Int) :=
        Int.mul_le_mul_of_nonneg_right (by omega) hD0
      have h2 : (S + 1) * (km.m_dimNum : Int) = S * (km.m_dimNum : Int) + (km.m_dimNum : Int) := by
        ring
      omega
    refine ⟨?_, by omega, by omega⟩
    rw [Init_uniform_eq RAND_MAX rand km data N hmode1 hmode2]
    have hcond : 0 ≤ (i : Int) ∧ (i : Int) < (km.m_clusterNum : Int) ∧ d < km.m_dimNum :=
      ⟨by omega, by omega, hd⟩
    simp only [KMeans.GetMean, seeded]
    rw [if_pos hcond]
    simp only [KMeans.sample, Int.toNat_ofNat, hS]
    rw [wrap32_of_range (S * (km.m_dimNum : Int)) (by omega) (by omega),
      wrap32_of_range _ (by omega) (by omega)]

theorem C20_uniform_indices_distinct_in_bounds_witness :
    demoEngine.m_initMode ≠ InitManual ∧ demoEngine.m_initMode ≠ InitRandom ∧
    1 ≤ demoEngine.m_clusterNum ∧ (demoEngine.m_clusterNum : Int) ≤ 6 ∧
    ((demoEngine.m_clusterNum : Int) - 1) * 6 ≤ 2147483647 ∧
    (6 : Int) * (demoEngine.m_dimNum : Int) ≤ 2147483647 ∧
    (∀ i j : Nat, i < j → j < demoEngine.m_clusterNum →
      selectUniform 6 (demoEngine.m_clusterNum : Int) (i : Int) <
        selectUniform 6 (demoEngine.m_clusterNum : Int) (j : Int)) :=
  ⟨by decide, by decide, by decide, by decide, by decide, by decide,
    (C20_uniform_indices_distinct_in_bounds 2147483647 (fun _ => 0) demoEngine demoData 6
      (by decide) (by decide) (by decide) (by decide) (by decide) (by decide)).2.1⟩

/-! ## The iterations of the loop -/

theorem iter_succ_body (sqrt : ℚ → ℚ) (data : Int → Int) (N : Int) (t : Nat)
    (s : LoopState bitsT bitsA) :
    LoopState.iter sqrt data N (t + 1) s = LoopState.iter sqrt data N t (s.body sqrt data N) := by
  induction t with
  | zero => rfl
  | succ t ih =>
    show (LoopState.iter sqrt data N (t + 1) s).body sqrt data N = _
    rw [ih]
    rfl

theorem iter_config (sqrt : ℚ → ℚ) (data : Int → Int) (N : Int) (t : Nat)
    (s : LoopState bitsT bitsA) :
    (LoopState.iter sqrt data N t s).km.m_clusterNum = s.km.m_clusterNum ∧
    (LoopState.iter sqrt data N t s).km.m_dimNum = s.km.m_dimNum ∧
    (LoopState.iter sqrt data N t s).km.m_maxIterNum = s.km.m_maxIterNum ∧
    (LoopState.iter sqrt data N t s).km.m_endError = s.km.m_endError ∧
    (LoopState.iter sqrt data N t s).iterNum = s.iterNum + (t : Int) := by
  induction t with
  | zero => simp [LoopState.iter]
  | succ t ih =>
    obtain ⟨h1, h2, h3, h4, h5⟩ := ih
    obtain ⟨b1, b2, b3, b4, b5⟩ := body_config sqrt data N (LoopState.iter sqrt data N t s)
    show ((LoopState.iter sqrt data N t s).body sqrt data N).km.m_clusterNum = _ ∧ _
    refine ⟨b1.trans h1, b2.trans h2, b3.trans h3, b4.trans h4, ?_⟩
    show ((LoopState.iter sqrt data N t s).body sqrt data N).iterNum = _
    rw [b5, h5]; push_cast; ring

theorem body_unchanged (sqrt : ℚ → ℚ) (data : Int → Int) (N : Int)
    (s : LoopState bitsT bitsA) :
    (s.body sqrt data N).unchanged =
      if stableTest s.km.m_endError s.currCost (s.body sqrt data N).currCost = true then
        s.unchanged + 1
      else s.unchanged := by
  simp [LoopState.body, reestimate_eq]

theorem stableTest_zero (e : ℚ) (c : Option ℚ) : stableTest e (some 0) c = false := by
  cases c with
  | none => rfl
  | some c =>
    have h : ¬ (|(0 : ℚ) - c| < e * 0) := by
      rw [mul_zero]
      exact not_lt.mpr (abs_nonneg _)
    simp only [stableTest, h, decide_False]

theorem body_unchanged_of_zero (sqrt : ℚ → ℚ) (data : Int → Int) (N : Int)
    (s : LoopState bitsT bitsA) (h : s.currCost = some 0) :
    (s.body sqrt data N).unchanged = s.unchanged := by
  rw [body_unchanged, h, stableTest_zero]
  simp

theorem iter_unchanged (sqrt : ℚ → ℚ) (data : Int → Int) (N : Int)
    (s : LoopState bitsT bitsA) (t : Nat) :
    (LoopState.iter sqrt data N t s).unchanged =
      s.unchanged + (LoopState.stableCount sqrt data N s t : Int) := by
  induction t with
  | zero => simp [LoopState.iter, LoopState.stableCount]
  | succ t ih =>
    show ((LoopState.iter sqrt data N t s).body sqrt data N).unchanged = _
    rw [body_unchanged, ih]
    obtain ⟨-, -, -, he, -⟩ := iter_config sqrt data N t s
    rw [he]
    have hc : (LoopState.iter sqrt data N t s).currCost = LoopState.cost sqrt data N s t := rfl
    have hc' : ((LoopState.iter sqrt data N t s).body sqrt data N).currCost =
        LoopState.cost sqrt data N s (t + 1) := rfl
    rw [hc, hc']
    unfold LoopState.stableCount
    rw [List.range_succ, List.filter_append, List.length_append]
    by_cases htest : stableTest s.km.m_endError (LoopState.cost sqrt data N s t)
        (LoopState.cost sqrt data N s (t + 1)) = true
    · rw [if_pos htest]
      simp [htest]
      ring
    · rw [if_neg htest]
      simp [htest]

theorem stableCount_step (sqrt : ℚ → ℚ) (data : Int → Int) (N : Int)
    (s : LoopState bitsT bitsA) (t : Nat) :
    LoopState.stableCount sqrt data N s (t + 1) =
      LoopState.stableCount sqrt data N s t +
        (if stableTest s.km.m_endError (LoopState.cost sqrt data N s t)
            (LoopState.cost sqrt data N s (t + 1)) = true then 1 else 0) := by
  unfold LoopState.stableCount
  rw [List.range_succ, List.filter_append, List.length_append]
  by_cases htest : stableTest s.km.m_endError (LoopState.cost sqrt data N s t)
      (LoopState.cost sqrt data N s (t + 1)) = true
  · simp [htest]
  · simp [htest]

theorem stop_iff_exitTest (sqrt : ℚ → ℚ) (data : Int → Int) (N : Int)
    (s : LoopState bitsT bitsA) (h0 : s.iterNum = 0) (hu : s.unchanged = 0) (t : Nat) :
    (LoopState.iter sqrt data N t s).stop = true ↔ LoopState.exitTest sqrt data N s t := by
  obtain ⟨-, -, hmax, -, hit⟩ := iter_config sqrt data N t s
  have hun := iter_unchanged sqrt data N s t
  unfold LoopState.stop LoopState.exitTest
  rw [decide_eq_true_iff, hmax, hit, hun, h0, hu]
  constructor
  · rintro (h | h)
    · left; omega
    · right; omega
  · rintro (h | h)
    · left; omega
    · right; omega

theorem run_eq_iter (sqrt : ℚ → ℚ) (data : Int → Int) (N : Int) (fuel : Nat) :
    ∀ (s : LoopState bitsT bitsA) (t : Nat), 1 ≤ t → t ≤ fuel →
      (LoopState.iter sqrt data N t s).stop = true →
      (∀ t', 1 ≤ t' → t' < t → (LoopState.iter sqrt data N t' s).stop = false) →
      LoopState.run sqrt data N fuel s = some (LoopState.iter sqrt data N t s) := by
  induction fuel with
  | zero => intro s t h1 h2; omega
  | succ f ih =>
    intro s t h1 h2 hstop hfirst
    unfold LoopState.run
    simp only
    by_cases ht : t = 1
    · subst ht
      have : LoopState.iter sqrt data N 1 s = s.body sqrt data N := rfl
      rw [this] at hstop
      rw [if_pos hstop, this]
    · have hb : (s.body sqrt data N).stop = false := hfirst 1 (by omega) (by omega)
      rw [hb]
      simp only [Bool.false_eq_true, if_false]
      obtain ⟨t0, rfl⟩ : ∃ t0, t = t0 + 1 := ⟨t - 1, by omega⟩
      rw [iter_succ_body]
      apply ih (s.body sqrt data N) t0 (by omega) (by omega)
      · rw [← iter_succ_body]; exact hstop
      · intro t' h1' h2'
        rw [← iter_succ_body]
        exact hfirst (t' + 1) (by omega) (by omega)

theorem run_some_iter (sqrt : ℚ → ℚ) (data : Int → Int) (N : Int) (fuel : Nat) :
    ∀ (s r : LoopState bitsT bitsA), LoopState.run sqrt data N fuel s = some r →
      ∃ t, 1 ≤ t ∧ t ≤ fuel ∧ r = LoopState.iter sqrt data N t s ∧
        (LoopState.iter sqrt data N t s).stop = true ∧
        (∀ t', 1 ≤ t' → t' < t → (LoopState.iter sqrt data N t' s).stop = false) := by
  induction fuel with
  | zero => intro s r h; simp [LoopState.run] at h
  | succ f ih =>
    intro s r h
    unfold LoopState.run at h
    simp only at h
    by_cases hstop : (s.body sqrt data N).stop = true
    · rw [if_pos hstop] at h
      cases h
      refine ⟨1, by omega, by omega, rfl, hstop, ?_⟩
      intro t' h1 h2; omega
    · rw [if_neg hstop] at h
      obtain ⟨t, h1, h2, hr, hs, hfirst⟩ := ih _ _ h
      refine ⟨t + 1, by omega, by omega, ?_, ?_, ?_⟩
      · rw [iter_succ_body]; exact hr
      · rw [iter_succ_body]; exact hs
      · intro t' h1' h2'
        obtain ⟨t0, rfl⟩ : ∃ t0, t' = t0 + 1 := ⟨t' - 1, by omega⟩
        rw [iter_succ_body]
        by_cases ht0 : t0 = 0
        · subst ht0
          simpa [LoopState.iter] using hstop
        · exact hfirst t0 (by omega) (by omega)

theorem sumD_append (l : List (Option ℚ)) (x : Option ℚ) :
    sumD (l ++ [x]) = addD (sumD l) x := by
  unfold sumD
  rw [List.foldl_append]
  rfl

theorem classify_fold_cost (sqrt : ℚ → ℚ) (km : KMeans bitsT bitsA) (data : Int → Int)
    (l0 : Int) (hK : 0 < km.m_clusterNum) (n : Nat) :
    ((List.range n).foldl (km.classify sqrt data) (Buffers.cleared l0)).currCost =
      sumD ((List.range n).map (fun i => km.distOf sqrt data i)) := by
  induction n with
  | zero => simp [Buffers.cleared, sumD]
  | succ n ih =>
    rw [List.range_succ, List.foldl_append, List.map_append]
    simp only [List.foldl_cons, List.foldl_nil, List.map_cons, List.map_nil]
    rw [sumD_append]
    generalize (List.range n).foldl (km.classify sqrt data) (Buffers.cleared l0) = b at ih
    simp only [KMeans.classify]
    rw [ih, GetLabel_indep sqrt km _ b.label (-1) hK]
    rfl

theorem classification_cost (sqrt : ℚ → ℚ) (km : KMeans bitsT bitsA) (data : Int → Int)
    (N : Int) (l0 : Int) (hK : 0 < km.m_clusterNum) :
    (km.classification sqrt data N l0).currCost =
      divD (sumD ((List.range N.toNat).map (fun i => km.distOf sqrt data i))) N := by
  simp only [KMeans.classification]
  rw [classify_fold_cost sqrt km data l0 hK N.toNat]

theorem body_cost (sqrt : ℚ → ℚ) (data : Int → Int) (N : Int) (s : LoopState bitsT bitsA)
    (hK : 0 < s.km.m_clusterNum) :
    (s.body sqrt data N).currCost =
      divD (sumD ((List.range N.toNat).map (fun i => s.km.distOf sqrt data i))) N := by
  simp only [LoopState.body]
  exact classification_cost sqrt s.km data N s.label hK

theorem stableCount_le (sqrt : ℚ → ℚ) (data : Int → Int) (N : Int)
    (s : LoopState bitsT bitsA) (h0 : s.currCost = some 0) (t : Nat) :
    LoopState.stableCount sqrt data N s (t + 1) ≤ t := by
  induction t with
  | zero =>
    rw [stableCount_step]
    have hc : LoopState.cost sqrt data N s 0 = some 0 := h0
    rw [hc, stableTest_zero]
    simp [LoopState.stableCount]
  | succ t ih =>
    rw [stableCount_step]
    split <;> omega

theorem loopStart_fields (RAND_MAX : Int) (rand : Nat → Int) (km : KMeans bitsT bitsA)
    (data : Int → Int) (N : Int) :
    (km.loopStart RAND_MAX rand data N).iterNum = 0 ∧
    (km.loopStart RAND_MAX rand data N).unchanged = 0 ∧
    (km.loopStart RAND_MAX rand data N).currCost = some 0 ∧
    (km.loopStart RAND_MAX rand data N).km.m_maxIterNum = km.m_maxIterNum ∧
    (km.loopStart RAND_MAX rand data N).km.m_endError = km.m_endError ∧
    (km.loopStart RAND_MAX rand data N).km.m_clusterNum = km.m_clusterNum := by
  obtain ⟨h1, -, h3, h4, -⟩ := Init_config RAND_MAX rand km data N
  exact ⟨rfl, rfl, rfl, h3, h4, h1⟩

/-- C17: for every input with N >= K >= 1, every configured `maxIter` `M`
(`M <= 0` included) and every `endError`, the loop of `Cluster` terminates and
`Cluster` returns; the number `t` of iterations executed satisfies
`min(max(1, M), 4) <= t <= max(1, M)`; an iteration whose previous cost is 0
does not increment the stability counter, the test being the strict
`|lastCost - currCost| < endError * lastCost`, and so the counter is still 0
after the first iteration. -/
theorem C17_iteration_bounds (sqrt : ℚ → ℚ) (RAND_MAX : Int) (rand : Nat → Int)
    (km : KMeans bitsT bitsA) (data : Int → Int) (N : Int) (Label : Option (Nat → Int))
    (hK : 1 ≤ km.m_clusterNum) (hN : (km.m_clusterNum : Int) ≤ N) :
    (∃ t : Nat,
      LoopState.run sqrt data N (max 1 km.m_maxIterNum).toNat
          (km.loopStart RAND_MAX rand data N) =
        some (LoopState.iter sqrt data N t (km.loopStart RAND_MAX rand data N)) ∧
      (LoopState.iter sqrt data N t (km.loopStart RAND_MAX rand data N)).iterNum = (t : Int) ∧
      km.Cluster sqrt RAND_MAX rand data N Label =
        Except.ok ((LoopState.iter sqrt data N t (km.loopStart RAND_MAX rand data N)).km,
          Label.map (fun L =>
            (LoopState.iter sqrt data N t (km.loopStart RAND_MAX rand data N)).km.emitLabels
              sqrt data N
              (LoopState.iter sqrt data N t (km.loopStart RAND_MAX rand data N)).label L)) ∧
      (t : Int) ≤ max 1 km.m_maxIterNum ∧ min (max 1 km.m_maxIterNum) 4 ≤ (t : Int)) ∧
    (∀ s : LoopState bitsT bitsA, s.currCost = some 0 →
      (s.body sqrt data N).unchanged = s.unchanged) ∧
    (LoopState.iter sqrt data N 1 (km.loopStart RAND_MAX rand data N)).unchanged = 0 := by
  have _hK := hK
  obtain ⟨hi0, hu0, hc0, hM, hE, hKs⟩ := loopStart_fields RAND_MAX rand km data N
  have hrunC := Cluster_eq_run sqrt RAND_MAX rand km data N Label hN
  rw [hM] at hrunC
  generalize km.loopStart RAND_MAX rand data N = s0 at hi0 hu0 hc0 hM hE hKs hrunC
  refine ⟨?_, fun s hs => body_unchanged_of_zero sqrt data N s hs, ?_⟩
  · obtain ⟨r, hr⟩ := run_some sqrt data N (max 1 km.m_maxIterNum).toNat s0 (by omega)
      (by rw [hM, hi0]; omega)
    obtain ⟨t, h1, h2, hrt, hs, hfirst⟩ := run_some_iter sqrt data N _ _ _ hr
    subst hrt
    refine ⟨t, hr, ?_, ?_, by omega, ?_⟩
    · rw [(iter_config sqrt data N t s0).2.2.2.2, hi0, zero_add]
    · rw [hrunC, hr]
    · by_contra hlt
      have hex := (stop_iff_exitTest sqrt data N s0 hi0 hu0 t).mp hs
      obtain ⟨t0, rfl⟩ : ∃ t0, t = t0 + 1 := ⟨t - 1, by omega⟩
      have hcnt := stableCount_le sqrt data N s0 hc0 t0
      rcases hex with hex | hex
      · rw [hM] at hex
        omega
      · omega
  · have h1 : LoopState.iter sqrt data N 1 s0 = s0.body sqrt data N := rfl
    rw [h1, body_unchanged_of_zero sqrt data N s0 hc0, hu0]

theorem C17_iteration_bounds_witness :
    1 ≤ demoEngine.m_clusterNum ∧ (demoEngine.m_clusterNum : Int) ≤ 6 ∧
    (∃ t : Nat,
      LoopState.run demoSqrt demoData 6 (max 1 demoEngine.m_maxIterNum).toNat
          (demoEngine.loopStart 2147483647 (fun _ => 0) demoData 6) =
        some (LoopState.iter demoSqrt demoData 6 t
          (demoEngine.loopStart 2147483647 (fun _ => 0) demoData 6)) ∧
      (t : Int) ≤ max 1 demoEngine.m_maxIterNum ∧ min (max 1 demoEngine.m_maxIterNum) 4 ≤ (t : Int)) :=
  have h := (C17_iteration_bounds demoSqrt 2147483647 (fun _ => 0) demoEngine demoData 6
    (some (fun _ => -1)) (by decide) (by decide)).1
  ⟨by decide, by decide, h.elim (fun t ht => ⟨t, ht.1, ht.2.2.2.1, ht.2.2.2.2⟩)⟩

/-! ## Runs in which `sqrt` is only applied to perfect squares -/

theorem CalcDistance_eq_sqrt (sqrt : ℚ → ℚ) (km : KMeans bitsT bitsA) (x u : Nat → Int) :
    km.CalcDistance sqrt x u =
      if km.sqDist x u < 0 then none else some (sqrt (km.sqDist x u)) := rfl

theorem demoSqrt_square (n : ℕ) : demoSqrt ((n : ℚ) * n) = n := by
  unfold demoSqrt
  rw [natSqrt_eq, ← Nat.cast_mul, Rat.num_natCast, Int.toNat_ofNat, Nat.sqrt_eq]

theorem sqrt_of_isSquare (sqrt : ℚ → ℚ) (hsq : ∀ n : ℕ, sqrt ((n : ℚ) * n) = n) (q : ℚ)
    (h : isSquare q = true) : sqrt q = demoSqrt q := by
  unfold isSquare at h
  rw [decide_eq_true_iff] at h
  obtain ⟨hden, hnum, hs⟩ := h
  obtain ⟨r, hr⟩ : ∃ r : ℕ, q = (r : ℚ) * r := by
    refine ⟨Nat.sqrt q.num.toNat, ?_⟩
    calc q = (q.num : ℚ) := ((Rat.den_eq_one_iff q).mp hden).symm
      _ = (((q.num.toNat : ℕ) : Int) : ℚ) := by rw [Int.toNat_of_nonneg hnum]
      _ = ((q.num.toNat : ℕ) : ℚ) := Int.cast_natCast _
      _ = ((Nat.sqrt q.num.toNat * Nat.sqrt q.num.toNat : ℕ) : ℚ) := by rw [hs]
      _ = (Nat.sqrt q.num.toNat : ℚ) * (Nat.sqrt q.num.toNat : ℚ) := Nat.cast_mul _ _
  rw [hr, hsq, demoSqrt_square]

theorem labelStep_foldl_congr (f g : Nat → Option ℚ) (a : Option ℚ × Int) (n : Nat)
    (h : ∀ j, j < n → f j = g j) :
    (List.range n).foldl (labelStep f) a = (List.range n).foldl (labelStep g) a := by
  apply List.foldl_ext
  intro acc j hj
  have hj' : j < n := List.mem_range.mp hj
  unfold labelStep
  rw [h j hj']

theorem GetLabel_congr (sqrt : ℚ → ℚ) (hsq : ∀ n : ℕ, sqrt ((n : ℚ) * n) = n)
    (km : KMeans bitsT bitsA) (x : Nat → Int) (l : Int)
    (h : ∀ j, j < km.m_clusterNum → isSquare (km.sqDist x (km.m_means (j : Int))) = true) :
    km.GetLabel sqrt x l = km.GetLabel demoSqrt x l := by
  unfold KMeans.GetLabel
  apply labelStep_foldl_congr
  intro j hj
  rw [CalcDistance_eq_sqrt, CalcDistance_eq_sqrt, sqrt_of_isSquare sqrt hsq _ (h j hj)]

theorem squaresOnly_spec (km : KMeans bitsT bitsA) (data : Int → Int) (N : Int)
    (h : km.squaresOnly data N = true) (i : Nat) (hi : i < N.toNat) (j : Nat)
    (hj : j < km.m_clusterNum) :
    isSquare (km.sqDist (km.sample data (i : Int)) (km.m_means (j : Int))) = true := by
  unfold KMeans.squaresOnly at h
  rw [List.all_eq_true] at h
  have h1 := h i (List.mem_range.mpr hi)
  rw [List.all_eq_true] at h1
  exact h1 j (List.mem_range.mpr hj)

theorem classification_congr (sqrt : ℚ → ℚ) (hsq : ∀ n : ℕ, sqrt ((n : ℚ) * n) = n)
    (km : KMeans bitsT bitsA) (data : Int → Int) (N : Int) (l : Int)
    (h : km.squaresOnly data N = true) :
    km.classification sqrt data N l = km.classification demoSqrt data N l := by
  unfold KMeans.classification
  have hfold : (List.range N.toNat).foldl (km.classify sqrt data) (Buffers.cleared l) =
      (List.range N.toNat).foldl (km.classify demoSqrt data) (Buffers.cleared l) := by
    apply List.foldl_ext
    intro b i hi
    have hi' : i < N.toNat := List.mem_range.mp hi
    simp only [KMeans.classify]
    rw [GetLabel_congr sqrt hsq km _ b.label (fun j hj => squaresOnly_spec km data N h i hi' j hj)]
  rw [hfold]

theorem body_congr (sqrt : ℚ → ℚ) (hsq : ∀ n : ℕ, sqrt ((n : ℚ) * n) = n)
    (data : Int → Int) (N : Int) (s : LoopState bitsT bitsA)
    (h : s.km.squaresOnly data N = true) :
    s.body sqrt data N = s.body demoSqrt data N := by
  unfold LoopState.body
  rw [classification_congr sqrt hsq s.km data N s.label h]

theorem iter_congr (sqrt : ℚ → ℚ) (hsq : ∀ n : ℕ, sqrt ((n : ℚ) * n) = n)
    (data : Int → Int) (N : Int) (s : LoopState bitsT bitsA) (t : Nat)
    (h : ∀ u, u < t → (LoopState.iter demoSqrt data N u s).km.squaresOnly data N = true) :
    LoopState.iter sqrt data N t s = LoopState.iter demoSqrt data N t s := by
  induction t with
  | zero => rfl
  | succ t ih =>
    show (LoopState.iter sqrt data N t s).body sqrt data N =
      (LoopState.iter demoSqrt data N t s).body demoSqrt data N
    rw [ih (fun u hu => h u (by omega))]
    exact body_congr sqrt hsq data N _ (h t (by omega))

theorem labelOf_congr (sqrt : ℚ → ℚ) (hsq : ∀ n : ℕ, sqrt ((n : ℚ) * n) = n)
    (km : KMeans bitsT bitsA) (data : Int → Int) (N : Int)
    (h : km.squaresOnly data N = true) (i : Nat) (hi : i < N.toNat) :
    km.labelOf sqrt data i = km.labelOf demoSqrt data i := by
  unfold KMeans.labelOf
  rw [GetLabel_congr sqrt hsq km _ (-1) (fun j hj => squaresOnly_spec km data N h i hi j hj)]

theorem loopStart_uniform_indep (RAND_MAX RAND_MAX' : Int) (rand rand' : Nat → Int)
    (km : KMeans bitsT bitsA) (data : Int → Int) (N : Int)
    (h1 : km.m_initMode ≠ InitManual) (h2 : km.m_initMode ≠ InitRandom) :
    km.loopStart RAND_MAX rand data N = km.loopStart RAND_MAX' rand' data N := by
  unfold KMeans.loopStart
  rw [Init_uniform_eq RAND_MAX rand km data N h1 h2,
    Init_uniform_eq RAND_MAX' rand' km data N h1 h2]

/-- C13: for `D = 1`, `K = 2`, Uniform init, `maxIter = 100` and
`endError = 0.001`, on the points `[1, 2, 3, 10, 11, 12]` (`N = 6`) `Init` seeds
the centroids as `[1, 10]`, and `Cluster` returns with the centroids `[2, 11]`
and the labels `[0, 0, 0, 1, 1, 1]`, for every `sqrt` that is exact on the
squares of natural numbers. -/
theorem C13_two_clusters_scenario (sqrt : ℚ → ℚ) (RAND_MAX : Int) (rand : Nat → Int)
    (Label : Nat → Int) (hsq : ∀ n : ℕ, sqrt ((n : ℚ) * n) = n) :
    (demoEngine.Init RAND_MAX rand demoData 6).GetMean 0 0 = 1 ∧
    (demoEngine.Init RAND_MAX rand demoData 6).GetMean 1 0 = 10 ∧
    ∃ (km' : KMeans 32 64) (Label' : Nat → Int),
      demoEngine.Cluster sqrt RAND_MAX rand demoData 6 (some Label) =
        Except.ok (km', some Label') ∧
      km'.GetMean 0 0 = 2 ∧ km'.GetMean 1 0 = 11 ∧
      Label' 0 = 0 ∧ Label' 1 = 0 ∧ Label' 2 = 0 ∧
      Label' 3 = 1 ∧ Label' 4 = 1 ∧ Label' 5 = 1 := by
  have hm1 : demoEngine.m_initMode ≠ InitManual := by decide
  have hm2 : demoEngine.m_initMode ≠ InitRandom := by decide
  refine ⟨?_, ?_, ?_⟩
  · rw [Init_uniform_eq RAND_MAX rand demoEngine demoData 6 hm1 hm2]
    decide
  · rw [Init_uniform_eq RAND_MAX rand demoEngine demoData 6 hm1 hm2]
    decide
  · have hstart := loopStart_uniform_indep RAND_MAX 2147483647 rand (fun _ => 0) demoEngine
      demoData 6 hm1 hm2
    have hsqs : ∀ u, u < 6 →
        (LoopState.iter demoSqrt demoData 6 u
          (demoEngine.loopStart 2147483647 (fun _ => 0) demoData 6)).km.squaresOnly
            demoData 6 = true := by decide!
    have hit : ∀ t, t ≤ 5 →
        LoopState.iter sqrt demoData 6 t
            (demoEngine.loopStart 2147483647 (fun _ => 0) demoData 6) =
          LoopState.iter demoSqrt demoData 6 t
            (demoEngine.loopStart 2147483647 (fun _ => 0) demoData 6) := by
      intro t ht
      exact iter_congr sqrt hsq demoData 6 _ t (fun u hu => hsqs u (by omega))
    have hstop5 : (LoopState.iter demoSqrt demoData 6 5
        (demoEngine.loopStart 2147483647 (fun _ => 0) demoData 6)).stop = true := by decide!
    have hstopn : ∀ t', t' < 5 → 1 ≤ t' →
        (LoopState.iter demoSqrt demoData 6 t'
          (demoEngine.loopStart 2147483647 (fun _ => 0) demoData 6)).stop = false := by decide!
    have hrun : LoopState.run sqrt demoData 6 100
        (demoEngine.loopStart 2147483647 (fun _ => 0) demoData 6) =
        some (LoopState.iter demoSqrt demoData 6 5
          (demoEngine.loopStart 2147483647 (fun _ => 0) demoData 6)) := by
      rw [← hit 5 (by omega)]
      apply run_eq_iter sqrt demoData 6 100 _ 5 (by omega) (by omega)
      · rw [hit 5 (by omega)]; exact hstop5
      · intro t' h1 h2
        rw [hit t' (by omega)]
        exact hstopn t' h2 h1
    have hfuel : (max 1 (demoEngine.loopStart 2147483647 (fun _ => 0) demoData 6).km.m_maxIterNum).toNat
        = 100 := by decide
    have hC := Cluster_eq_run sqrt RAND_MAX rand demoEngine demoData 6 (some Label) (by decide)
    rw [hstart, hfuel, hrun] at hC
    simp only [Option.map] at hC
    have hKpos : 0 < (LoopState.iter demoSqrt demoData 6 5
        (demoEngine.loopStart 2147483647 (fun _ => 0) demoData 6)).km.m_clusterNum := by decide!
    have hlab : ∀ j, j < 6 →
        (LoopState.iter demoSqrt demoData 6 5
          (demoEngine.loopStart 2147483647 (fun _ => 0) demoData 6)).km.emitLabels sqrt
            demoData 6
            (LoopState.iter demoSqrt demoData 6 5
              (demoEngine.loopStart 2147483647 (fun _ => 0) demoData 6)).label Label j =
        (LoopState.iter demoSqrt demoData 6 5
          (demoEngine.loopStart 2147483647 (fun _ => 0) demoData 6)).km.labelOf demoSqrt
            demoData j := by
      intro j hj
      rw [emitLabels_eq sqrt _ demoData 6 _ Label hKpos]
      have hj' : j < (6 : Int).toNat := by simpa using hj
      simp only [hj', if_true]
      exact labelOf_congr sqrt hsq _ demoData 6 (hsqs 5 (by omega)) j hj'
    refine ⟨_, _, hC, by decide!, by decide!, ?_, ?_, ?_, ?_, ?_, ?_⟩
    · rw [hlab 0 (by omega)]; decide!
    · rw [hlab 1 (by omega)]; decide!
    · rw [hlab 2 (by omega)]; decide!
    · rw [hlab 3 (by omega)]; decide!
    · rw [hlab 4 (by omega)]; decide!
    · rw [hlab 5 (by omega)]; decide!

theorem C13_two_clusters_scenario_witness :
    (∀ n : ℕ, demoSqrt ((n : ℚ) * n) = n) ∧
    ∃ (km' : KMeans 32 64) (Label' : Nat → Int),
      demoEngine.Cluster demoSqrt 2147483647 (fun _ => 0) demoData 6 (some (fun _ => -1)) =
        Except.ok (km', some Label') ∧
      km'.GetMean 0 0 = 2 ∧ km'.GetMean 1 0 = 11 ∧
      Label' 0 = 0 ∧ Label' 1 = 0 ∧ Label' 2 = 0 ∧
      Label' 3 = 1 ∧ Label' 4 = 1 ∧ Label' 5 = 1 :=
  ⟨demoSqrt_square,
    (C13_two_clusters_scenario demoSqrt 2147483647 (fun _ => 0) (fun _ => -1)
      demoSqrt_square).2.2⟩

/-! ## As many points as clusters -/

theorem half_ge (bits n : Nat) (h : n ≤ bits - 1) : (2 : Int) ^ n ≤ half bits := by
  unfold half
  exact pow_le_pow_right₀ (by norm_num) h

theorem wrap_small (bits : Nat) (x : Int) (hb : 16 ≤ bits) (h1 : -23170 ≤ x) (h2 : x ≤ 23170) :
    wrap bits x = x := by
  have h := half_ge bits 15 (by omega)
  norm_num at h
  apply wrap_of_range
  · unfold minOf; omega
  · unfold maxOf; omega

theorem wrap_int (bits : Nat) (x : Int) (hb : 32 ≤ bits) (h1 : -2147483648 ≤ x)
    (h2 : x ≤ 2147483647) : wrap bits x = x := by
  have h := half_ge bits 31 (by omega)
  norm_num at h
  apply wrap_of_range
  · unfold minOf; omega
  · unfold maxOf; omega

theorem wrap_emod (bits : Nat) (x : Int) (hb : bits ≤ 32) :
    wrap bits (x % 4294967296) = wrap bits x := by
  unfold wrap
  have hdvd : (2 * half bits) ∣ (4294967296 : Int) := by
    unfold half
    have h1 : (2 : Int) * 2 ^ (bits - 1) = 2 ^ (bits - 1 + 1) := by ring
    rw [h1]
    have h2 : (4294967296 : Int) = 2 ^ 32 := by norm_num
    rw [h2]
    exact pow_dvd_pow 2 (by omega)
  have h3 : (x % 4294967296 + half bits) % (2 * half bits) = (x + half bits) % (2 * half bits) := by
    rw [Int.add_emod, Int.emod_emod_of_dvd x hdvd, ← Int.add_emod]
  rw [h3]

theorem divCount_one (bits : Nat) (x : Int) (hb : 16 ≤ bits) (h1 : -23170 ≤ x)
    (h2 : x ≤ 23170) : divCount bits x 1 = x := by
  unfold divCount
  by_cases h : 32 < bits
  · rw [if_pos h]
    simp
  · rw [if_neg h]
    simp only [Nat.cast_one, Int.ediv_one]
    rw [wrap_emod bits x (by omega)]
    exact wrap_small bits x hb h1 h2

theorem sumFold_nonneg (g : Nat → ℚ) (n : Nat) (h : ∀ d, d < n → 0 ≤ g d) :
    0 ≤ (List.range n).foldl (fun (temp : ℚ) (d : Nat) => temp + g d) 0 := by
  induction n with
  | zero => simp
  | succ n ih =>
    rw [List.range_succ, List.foldl_append]
    simp only [List.foldl_cons, List.foldl_nil]
    have := ih (fun d hd => h d (by omega))
    have := h n (by omega)
    linarith

theorem sumFold_zero (g : Nat → ℚ) (n : Nat) (h : ∀ d, d < n → g d = 0) :
    (List.range n).foldl (fun (temp : ℚ) (d : Nat) => temp + g d) 0 = 0 := by
  induction n with
  | zero => simp
  | succ n ih =>
    rw [List.range_succ, List.foldl_append]
    simp only [List.foldl_cons, List.foldl_nil]
    rw [ih (fun d hd => h d (by omega)), h n (by omega)]
    norm_num

theorem sumFold_pos (g : Nat → ℚ) (n : Nat) (h : ∀ d, d < n → 0 ≤ g d) (d0 : Nat)
    (hd0 : d0 < n) (hpos : 0 < g d0) :
    0 < (List.range n).foldl (fun (temp : ℚ) (d : Nat) => temp + g d) 0 := by
  induction n with
  | zero => omega
  | succ n ih =>
    rw [List.range_succ, List.foldl_append]
    simp only [List.foldl_cons, List.foldl_nil]
    have hnn := sumFold_nonneg g n (fun d hd => h d (by omega))
    by_cases hc : d0 = n
    · subst hc
      linarith
    · have := ih (fun d hd => h d (by omega)) (by omega)
      have := h n (by omega)
      linarith

theorem square_term (bits : Nat) (a b : Int) (ha1 : -23170 ≤ a) (ha2 : a ≤ 23170)
    (hb1 : -23170 ≤ b) (hb2 : b ≤ 23170) :
    wrap (max bits 32) (wrap (max bits 32) (a - b) * wrap (max bits 32) (a - b)) =
      (a - b) * (a - b) := by
  have hw : 32 ≤ max bits 32 := le_max_right _ _
  rw [wrap_int _ (a - b) hw (by omega) (by omega)]
  have h1 : 0 ≤ (a - b) * (a - b) := mul_self_nonneg _
  have h2 : (a - b) * (a - b) ≤ 2147483647 := by nlinarith
  exact wrap_int _ _ hw (by omega) h2

theorem sqDist_zero (km : KMeans bitsT bitsA) (x u : Nat → Int)
    (h : ∀ d, d < km.m_dimNum → x d = u d) : km.sqDist x u = 0 := by
  unfold KMeans.sqDist
  apply sumFold_zero
  intro d hd
  rw [h d hd]
  simp [wrap_zero]

theorem sqDist_pos (km : KMeans bitsT bitsA) (x u : Nat → Int)
    (hx : ∀ d, d < km.m_dimNum → -23170 ≤ x d ∧ x d ≤ 23170)
    (hu : ∀ d, d < km.m_dimNum → -23170 ≤ u d ∧ u d ≤ 23170)
    (d0 : Nat) (hd0 : d0 < km.m_dimNum) (hne : x d0 ≠ u d0) : 0 < km.sqDist x u := by
  unfold KMeans.sqDist
  have hterm : ∀ d, d < km.m_dimNum →
      ((wrap (max bitsT 32) (wrap (max bitsT 32) (x d - u d) *
        wrap (max bitsT 32) (x d - u d)) : Int) : ℚ) = (((x d - u d) * (x d - u d) : Int) : ℚ) := by
    intro d hd
    rw [square_term bitsT (x d) (u d) (hx d hd).1 (hx d hd).2 (hu d hd).1 (hu d hd).2]
  apply sumFold_pos _ _ _ d0 hd0
  · rw [hterm d0 hd0]
    have : 0 < (x d0 - u d0) * (x d0 - u d0) :=
      mul_self_pos.mpr (sub_ne_zero.mpr hne)
    exact_mod_cast this
  · intro d hd
    rw [hterm d hd]
    have : 0 ≤ (x d - u d) * (x d - u d) := mul_self_nonneg _
    exact_mod_cast this

theorem offset_bound (i d K D : Int) (hi0 : 0 ≤ i) (hi : i < K) (hd0 : 0 ≤ d) (hd : d < D) :
    0 ≤ i * D ∧ 0 ≤ i * D + d ∧ i * D + d < K * D := by
  have h1 : 0 ≤ i * D := Int.mul_nonneg hi0 (by omega)
  have h2 : (i + 1) * D ≤ K * D := Int.mul_le_mul_of_nonneg_right (by omega) (by omega)
  have h3 : (i + 1) * D = i * D + D := by ring
  exact ⟨h1, by omega, by omega⟩

theorem sample_own (km : KMeans bitsT bitsA) (data : Int → Int)
    (hsize : (km.m_clusterNum : Int) * (km.m_dimNum : Int) ≤ 2147483647) (i d : Nat)
    (hi : i < km.m_clusterNum) (hd : d < km.m_dimNum) :
    km.sample data (i : Int) d = data ((i : Int) * (km.m_dimNum : Int) + (d : Int)) := by
  obtain ⟨h1, h2, h3⟩ := offset_bound (i : Int) (d : Int) (km.m_clusterNum : Int)
    (km.m_dimNum : Int) (by omega) (by omega) (by omega) (by omega)
  unfold KMeans.sample
  rw [wrap32_of_range ((i : Int) * (km.m_dimNum : Int)) (by omega) (by omega),
    wrap32_of_range _ (by omega) (by omega)]

theorem distance_own (sqrt : ℚ → ℚ) (hs0 : sqrt 0 = 0) (hspos : ∀ q, 0 < q → 0 < sqrt q)
    (km : KMeans bitsT bitsA) (data : Int → Int) (hsd : km.smallDistinct data)
    (hown : km.holdsPoints data) (i j : Nat) (hi : i < km.m_clusterNum)
    (hj : j < km.m_clusterNum) :
    (i = j →
      km.CalcDistance sqrt (km.sample data (i : Int)) (km.m_means (j : Int)) = some 0) ∧
    (i ≠ j →
      km.CalcDistance sqrt (km.sample data (i : Int)) (km.m_means (j : Int)) =
        some (sqrt (km.sqDist (km.sample data (i : Int)) (km.m_means (j : Int)))) ∧
      0 < sqrt (km.sqDist (km.sample data (i : Int)) (km.m_means (j : Int)))) := by
  obtain ⟨-, hsize, hsmall, hdist⟩ := hsd
  have hx : ∀ d, d < km.m_dimNum →
      km.sample data (i : Int) d = data ((i : Int) * (km.m_dimNum : Int) + (d : Int)) :=
    fun d hd => sample_own km data hsize i d hi hd
  have hu : ∀ d, d < km.m_dimNum →
      km.m_means (j : Int) d = data ((j : Int) * (km.m_dimNum : Int) + (d : Int)) :=
    fun d hd => hown j d hj hd
  have hbound : ∀ (k d : Nat), k < km.m_clusterNum → d < km.m_dimNum →
      -23170 ≤ data ((k : Int) * (km.m_dimNum : Int) + (d : Int)) ∧
        data ((k : Int) * (km.m_dimNum : Int) + (d : Int)) ≤ 23170 := by
    intro k d hk hd
    obtain ⟨-, h2, h3⟩ := offset_bound (k : Int) (d : Int) (km.m_clusterNum : Int)
      (km.m_dimNum : Int) (by omega) (by omega) (by omega) (by omega)
    exact hsmall _ h2 h3
  rw [CalcDistance_eq_sqrt]
  constructor
  · intro hij
    subst hij
    rw [sqDist_zero km _ _ (fun d hd => by rw [hx d hd, hu d hd]), hs0]
    simp
  · intro hij
    obtain ⟨d0, hd0, hne⟩ := hdist i j hi hj hij
    have hpos : 0 < km.sqDist (km.sample data (i : Int)) (km.m_means (j : Int)) := by
      apply sqDist_pos km _ _ _ _ d0 hd0
      · rw [hx d0 hd0, hu d0 hd0]; exact hne
      · intro d hd; rw [hx d hd]; exact hbound i d hi hd
      · intro d hd; rw [hu d hd]; exact hbound j d hj hd
    rw [if_neg (not_lt.mpr (le_of_lt hpos))]
    exact ⟨rfl, hspos _ hpos⟩

theorem GetLabel_own (sqrt : ℚ → ℚ) (hs0 : sqrt 0 = 0) (hspos : ∀ q, 0 < q → 0 < sqrt q)
    (km : KMeans bitsT bitsA) (data : Int → Int) (hsd : km.smallDistinct data)
    (hown : km.holdsPoints data) (i : Nat) (hi : i < km.m_clusterNum) (l : Int) :
    km.GetLabel sqrt (km.sample data (i : Int)) l = (some 0, (i : Int)) := by
  obtain ⟨n, hn⟩ : ∃ n, km.m_clusterNum = n + 1 := ⟨km.m_clusterNum - 1, by omega⟩
  have hval : ∀ j, j < n + 1 →
      (i = j →
        km.CalcDistance sqrt (km.sample data (i : Int)) (km.m_means (j : Int)) = some 0) ∧
      (i ≠ j →
        km.CalcDistance sqrt (km.sample data (i : Int)) (km.m_means (j : Int)) =
          some (sqrt (km.sqDist (km.sample data (i : Int)) (km.m_means (j : Int)))) ∧
        0 < sqrt (km.sqDist (km.sample data (i : Int)) (km.m_means (j : Int)))) :=
    fun j hj => distance_own sqrt hs0 hspos km data hsd hown i j hi (by omega)
  have hg0 : ∀ j, i = j →
      (if i = j then (0 : ℚ)
        else sqrt (km.sqDist (km.sample data (i : Int)) (km.m_means (j : Int)))) = 0 :=
    fun j hij => if_pos hij
  have hgpos : ∀ j, j < n + 1 → i ≠ j →
      0 < (if i = j then (0 : ℚ)
        else sqrt (km.sqDist (km.sample data (i : Int)) (km.m_means (j : Int)))) := by
    intro j hj hij
    rw [if_neg hij]
    exact ((hval j hj).2 hij).2
  have hf : ∀ j, j < n + 1 →
      km.CalcDistance sqrt (km.sample data (i : Int)) (km.m_means (j : Int)) =
        some (if i = j then (0 : ℚ)
          else sqrt (km.sqDist (km.sample data (i : Int)) (km.m_means (j : Int)))) := by
    intro j hj
    by_cases hij : i = j
    · rw [if_pos hij]; exact (hval j hj).1 hij
    · rw [if_neg hij]; exact ((hval j hj).2 hij).1
  have hg : ∀ j, j < n + 1 →
      (if i = j then (0 : ℚ)
        else sqrt (km.sqDist (km.sample data (i : Int)) (km.m_means (j : Int)))) ≠ -1 := by
    intro j hj
    by_cases hij : i = j
    · rw [hg0 j hij]; norm_num
    · have := hgpos j hj hij
      intro h; rw [h] at this; norm_num at this
  unfold KMeans.GetLabel
  rw [hn]
  obtain ⟨m, hm, hfoldm, hmin, -⟩ := labelStep_foldl_spec
    (fun j => km.CalcDistance sqrt (km.sample data (i : Int)) (km.m_means (j : Int)))
    (fun j => if i = j then (0 : ℚ)
      else sqrt (km.sqDist (km.sample data (i : Int)) (km.m_means (j : Int)))) l n hf hg
  rw [hfoldm]
  have hi' : i < n + 1 := by omega
  have hle := hmin i hi'
  simp only [if_true] at hle
  have hmi : m = i := by
    by_contra hne
    have := hgpos m hm (fun h => hne h.symm)
    linarith
  subst hmi
  simp only [if_true]

theorem assigned_own (sqrt : ℚ → ℚ) (hs0 : sqrt 0 = 0) (hspos : ∀ q, 0 < q → 0 < sqrt q)
    (km : KMeans bitsT bitsA) (data : Int → Int) (hsd : km.smallDistinct data)
    (hown : km.holdsPoints data) (c : Nat) (n : Nat) (hn : n ≤ km.m_clusterNum) :
    km.assigned sqrt data n (c : Int) = if c < n then [c] else [] := by
  induction n with
  | zero => simp [KMeans.assigned]
  | succ n ih =>
    have hlab : km.labelOf sqrt data n = (n : Int) := by
      unfold KMeans.labelOf
      rw [GetLabel_own sqrt hs0 hspos km data hsd hown n (by omega) (-1)]
    rw [assigned_succ, hlab, ih (by omega)]
    by_cases hnc : n = c
    · subst hnc
      simp
    · have h1 : ¬ ((n : Int) = (c : Int)) := by omega
      rw [if_neg h1]
      by_cases hcn : c < n
      · rw [if_pos hcn, if_pos (by omega)]
      · rw [if_neg hcn, if_neg (by omega)]

theorem singleton_cast_sum (f : Int → Int) (c : Nat) :
    (List.map f (([c] : List Nat) : List Int)).sum = f c := by
  simp

theorem small_in_range (bits : Nat) (x : Int) (hb : 16 ≤ bits) (h1 : -23170 ≤ x)
    (h2 : x ≤ 23170) : minOf bits ≤ x ∧ x ≤ maxOf bits := by
  have h := half_ge bits 15 (by omega)
  norm_num at h
  unfold minOf maxOf
  constructor <;> omega

theorem sumD_zeros (n : Nat) :
    sumD ((List.range n).map (fun _ => (some 0 : Option ℚ))) = some 0 := by
  induction n with
  | zero => rfl
  | succ n ih =>
    rw [List.range_succ, List.map_append]
    simp only [List.map_cons, List.map_nil]
    rw [sumD_append, ih]
    simp [addD]

theorem body_own (sqrt : ℚ → ℚ) (hs0 : sqrt 0 = 0) (hspos : ∀ q, 0 < q → 0 < sqrt q)
    (data : Int → Int) (N : Int) (s : LoopState bitsT bitsA) (hbT : 16 ≤ bitsT)
    (hbA : 16 ≤ bitsA) (hN : N = (s.km.m_clusterNum : Int)) (hsd : s.km.smallDistinct data)
    (hown : s.km.holdsPoints data) :
    (s.body sqrt data N).km = s.km ∧ (s.body sqrt data N).currCost = some 0 := by
  have hK : 0 < s.km.m_clusterNum := hsd.1
  have hNn : N.toNat = s.km.m_clusterNum := by omega
  constructor
  · have hmeans : reestimated s.km (s.km.classification sqrt data N s.label) s.km.m_clusterNum =
        s.km.m_means := by
      funext c e
      unfold reestimated
      split
      · rename_i hcond
        obtain ⟨hc0, hcK, -, he⟩ := hcond
        obtain ⟨c', rfl⟩ : ∃ c' : Nat, c = (c' : Int) := ⟨c.toNat, by omega⟩
        have hc' : c' < s.km.m_clusterNum := by omega
        have hass := assigned_own sqrt hs0 hspos s.km data hsd hown c' s.km.m_clusterNum
          (le_refl _)
        rw [if_pos hc'] at hass
        rw [classification_counts sqrt s.km data N s.label hK,
          classification_next_means sqrt s.km data N s.label hK, if_pos he, hNn, hass]
        rw [singleton_cast_sum]
        simp only [List.length_singleton]
        have hx := sample_own s.km data hsd.2.1 c' e hc' he
        obtain ⟨-, hb2, hb3⟩ := offset_bound (c' : Int) (e : Int) (s.km.m_clusterNum : Int)
          (s.km.m_dimNum : Int) (by omega) (by omega) (by omega) (by omega)
        obtain ⟨hlo, hhi⟩ := hsd.2.2.1 _ hb2 hb3
        rw [hx, wrap_small bitsA _ hbA hlo hhi]
        have h1 : (1 % 4294967296 : Nat) = 1 := by norm_num
        rw [h1, divCount_one bitsA _ hbA hlo hhi]
        obtain ⟨hmin, hmax⟩ := small_in_range bitsT _ hbT hlo hhi
        rw [(clipInt_spec bitsT _).2.2.2 hmin hmax]
        exact (hown c' e hc' he).symm
      · rfl
    simp only [LoopState.body, reestimate_eq, hmeans]
  · rw [body_cost sqrt data N s hK, hNn]
    have hzero : (List.range s.km.m_clusterNum).map (fun i => s.km.distOf sqrt data i) =
        (List.range s.km.m_clusterNum).map (fun _ => (some 0 : Option ℚ)) := by
      apply List.map_congr_left
      intro i hi
      unfold KMeans.distOf
      rw [GetLabel_own sqrt hs0 hspos s.km data hsd hown i (List.mem_range.mp hi) (-1)]
    rw [hzero, sumD_zeros]
    have hN0 : ¬ (s.km.m_clusterNum : Int) = 0 := by omega
    rw [hN]
    simp [divD, hN0]

theorem iter_own (sqrt : ℚ → ℚ) (hs0 : sqrt 0 = 0) (hspos : ∀ q, 0 < q → 0 < sqrt q)
    (data : Int → Int) (N : Int) (s : LoopState bitsT bitsA) (hbT : 16 ≤ bitsT)
    (hbA : 16 ≤ bitsA) (hN : N = (s.km.m_clusterNum : Int)) (hsd : s.km.smallDistinct data)
    (hown : s.km.holdsPoints data) (hc : s.currCost = some 0) (t : Nat) :
    (LoopState.iter sqrt data N t s).km = s.km ∧
    (LoopState.iter sqrt data N t s).currCost = some 0 ∧
    (LoopState.iter sqrt data N t s).unchanged = s.unchanged := by
  induction t with
  | zero => exact ⟨rfl, hc, rfl⟩
  | succ t ih =>
    obtain ⟨hkm, hcost, hun⟩ := ih
    have hb := body_own sqrt hs0 hspos data N (LoopState.iter sqrt data N t s) hbT hbA
      (by rw [hkm]; exact hN) (by rw [hkm]; exact hsd) (by rw [hkm]; exact hown)
    show ((LoopState.iter sqrt data N t s).body sqrt data N).km = s.km ∧
      ((LoopState.iter sqrt data N t s).body sqrt data N).currCost = some 0 ∧
      ((LoopState.iter sqrt data N t s).body sqrt data N).unchanged = s.unchanged
    refine ⟨hb.1.trans hkm, hb.2, ?_⟩
    rw [body_unchanged_of_zero sqrt data N _ hcost, hun]

theorem selectRandom_unit (RAND_MAX i r : Int) (hi0 : 0 ≤ i) (hi : i ≤ 2147483647) :
    selectRandom RAND_MAX 1 i r = i := by
  unfold selectRandom
  have h0 : wrap32 ((1 : Int) - 1) = 0 := by decide
  have h00 : wrap32 0 = 0 := by decide
  rw [h0, zero_mul, h00, Int.zero_tdiv, one_mul, add_zero,
    wrap32_of_range i (by omega) hi, wrap32_of_range i (by omega) hi]

theorem Init_own (RAND_MAX : Int) (rand : Nat → Int) (km : KMeans bitsT bitsA)
    (data : Int → Int) (N : Int) (hN : N = (km.m_clusterNum : Int))
    (hsd : km.smallDistinct data) (hmode : km.m_initMode ≠ InitManual)
    (hidx : km.m_initMode = InitRandom ∨
      ((km.m_clusterNum : Int) - 1) * (km.m_clusterNum : Int) ≤ 2147483647) :
    (km.Init RAND_MAX rand data N).holdsPoints data ∧
    (km.Init RAND_MAX rand data N).smallDistinct data := by
  obtain ⟨hK, hD, -, -, -⟩ := Init_config RAND_MAX rand km data N
  have hK1 : 1 ≤ km.m_clusterNum := hsd.1
  have hsize := hsd.2.1
  constructor
  · intro i d hi hd
    rw [hK] at hi
    rw [hD] at hd
    rw [hD]
    have hiD : (i : Int) ≤ 2147483647 := by
      have h1 : (i : Int) * 1 ≤ (km.m_clusterNum : Int) * (km.m_dimNum : Int) :=
        Int.mul_le_mul (by omega) (by omega) (by omega) (by omega)
      omega
    have hcond : 0 ≤ (i : Int) ∧ (i : Int) < (km.m_clusterNum : Int) ∧ d < km.m_dimNum :=
      ⟨by omega, by omega, hd⟩
    by_cases hr : km.m_initMode = InitRandom
    · rw [Init_random_eq RAND_MAX rand km data N hr]
      simp only [seeded]
      rw [if_pos hcond, Int.toNat_ofNat, hN, Int.tdiv_self (by omega),
        selectRandom_unit RAND_MAX (i : Int) (rand i) (by omega) hiD]
      exact sample_own km data hsize i d hi hd
    · rw [Init_uniform_eq RAND_MAX rand km data N hmode hr]
      simp only [seeded]
      rw [if_pos hcond, Int.toNat_ofNat, hN]
      have hle : (i : Int) * (km.m_clusterNum : Int) ≤ 2147483647 := by
        rcases hidx with h | h
        · exact absurd h hr
        · have : (i : Int) * (km.m_clusterNum : Int) ≤
              ((km.m_clusterNum : Int) - 1) * (km.m_clusterNum : Int) :=
            Int.mul_le_mul_of_nonneg_right (by omega) (by omega)
          omega
      rw [selectUniform_exact _ _ _ (by omega) (by omega) (by omega) hle,
        Int.mul_ediv_cancel _ (by omega)]
      exact sample_own km data hsize i d hi hd
  · unfold KMeans.smallDistinct
    rw [hK, hD]
    exact hsd

theorem demoSqrt_zero : demoSqrt 0 = 0 := by
  unfold demoSqrt
  rw [natSqrt_eq]
  simp

theorem demoSqrt_pos (q : ℚ) (h : 0 < q) : 0 < demoSqrt q := by
  unfold demoSqrt
  rw [natSqrt_eq]
  have hnum : 0 < q.num := Rat.num_pos.mpr h
  have h1 : 0 < q.num.toNat := by omega
  have h2 : 0 < Nat.sqrt q.num.toNat := Nat.sqrt_pos.mpr h1
  exact_mod_cast h2

theorem pairEngine_smallDistinct : pairEngine.smallDistinct pairData := by
  refine ⟨by decide, by decide, ?_, ?_⟩
  · intro p h0 h1
    have hp : p = 0 ∨ p = 1 := by
      have : p < 2 := h1
      omega
    rcases hp with rfl | rfl <;> decide
  · intro i j hi hj hij
    have hi' : i = 0 ∨ i = 1 := by
      have : i < 2 := hi
      omega
    have hj' : j = 0 ∨ j = 1 := by
      have : j < 2 := hj
      omega
    refine ⟨0, by decide, ?_⟩
    rcases hi' with rfl | rfl <;> rcases hj' with rfl | rfl
    · exact absurd rfl hij
    · decide
    · decide
    · exact absurd rfl hij

/-- C14, as the code has it: for signed integer types `T` and `A` of at least
16 bits, when N = K >= 1, with K pairwise distinct points whose coordinates lie
in `[-23170, 23170]` (no `int` product of `CalcDistance` overflows), with
`K * D <= INT_MAX` and, in Uniform mode, `(K - 1) * K <= INT_MAX` (no `int`
index overflows), Uniform or Random init, and a `sqrt` with `sqrt(0) = 0` and
`sqrt(q) > 0` for `q > 0`: every iteration assigns point `i` to cluster `i`,
leaves each centroid equal to its own point and has cost 0; the strict test
`|0 - 0| < endError * 0` fails, so no iteration is judged stable, the stability
counter stays 0, and the loop stops only on `iterNum >= maxIter`: `Cluster`
returns after exactly `max(1, maxIter)` iterations, 100 with the default
`maxIter`, with label `i` for point `i`, whatever `endError` is. -/
theorem C14_as_many_points_as_clusters (sqrt : ℚ → ℚ) (RAND_MAX : Int) (rand : Nat → Int)
    (km : KMeans bitsT bitsA) (data : Int → Int) (N : Int) (Label : Nat → Int)
    (hs0 : sqrt 0 = 0) (hspos : ∀ q, 0 < q → 0 < sqrt q)
    (hbT : 16 ≤ bitsT) (hbA : 16 ≤ bitsA)
    (hN : N = (km.m_clusterNum : Int)) (hsd : km.smallDistinct data)
    (hmode : km.m_initMode ≠ InitManual)
    (hidx : km.m_initMode = InitRandom ∨
      ((km.m_clusterNum : Int) - 1) * (km.m_clusterNum : Int) ≤ 2147483647) :
    (∀ t : Nat,
      (∀ i d : Nat, i < km.m_clusterNum → d < km.m_dimNum →
        (LoopState.iter sqrt data N t (km.loopStart RAND_MAX rand data N)).km.GetMean (i : Int) d =
          data ((i : Int) * (km.m_dimNum : Int) + (d : Int))) ∧
      (∀ i : Nat, i < km.m_clusterNum →
        (LoopState.iter sqrt data N t (km.loopStart RAND_MAX rand data N)).km.labelOf
          sqrt data i = (i : Int)) ∧
      LoopState.cost sqrt data N (km.loopStart RAND_MAX rand data N) t = some 0 ∧
      (LoopState.iter sqrt data N t (km.loopStart RAND_MAX rand data N)).unchanged = 0 ∧
      ((LoopState.iter sqrt data N t (km.loopStart RAND_MAX rand data N)).stop = true ↔
        km.m_maxIterNum ≤ (t : Int))) ∧
    LoopState.run sqrt data N (max 1 km.m_maxIterNum).toNat (km.loopStart RAND_MAX rand data N) =
      some (LoopState.iter sqrt data N (max 1 km.m_maxIterNum).toNat
        (km.loopStart RAND_MAX rand data N)) ∧
    (LoopState.iter sqrt data N (max 1 km.m_maxIterNum).toNat
      (km.loopStart RAND_MAX rand data N)).iterNum = max 1 km.m_maxIterNum ∧
    ∃ (km' : KMeans bitsT bitsA) (Label' : Nat → Int),
      km.Cluster sqrt RAND_MAX rand data N (some Label) = Except.ok (km', some Label') ∧
      (∀ i d : Nat, i < km.m_clusterNum → d < km.m_dimNum →
        km'.GetMean (i : Int) d = data ((i : Int) * (km.m_dimNum : Int) + (d : Int))) ∧
      (∀ i : Nat, i < km.m_clusterNum → Label' i = (i : Int)) := by
  obtain ⟨hown0, hsd0⟩ := Init_own RAND_MAX rand km data N hN hsd hmode hidx
  obtain ⟨hi0, hu0, hc0, hM, -, hKs⟩ := loopStart_fields RAND_MAX rand km data N
  obtain ⟨-, hDs, -, -, -⟩ := Init_config RAND_MAX rand km data N
  have hC := Cluster_eq_run sqrt RAND_MAX rand km data N (some Label) (by omega)
  have hkm0 : (km.loopStart RAND_MAX rand data N).km = km.Init RAND_MAX rand data N := rfl
  rw [← hkm0] at hown0 hsd0 hDs
  rw [hM] at hC
  generalize km.loopStart RAND_MAX rand data N = s0 at *
  have hN0 : N = (s0.km.m_clusterNum : Int) := by rw [hKs]; exact hN
  have hiter := iter_own sqrt hs0 hspos data N s0 hbT hbA hN0 hsd0 hown0 hc0
  have hstop : ∀ t : Nat, (LoopState.iter sqrt data N t s0).stop = true ↔
      km.m_maxIterNum ≤ (t : Int) := by
    intro t
    obtain ⟨-, -, hmax, -, hit⟩ := iter_config sqrt data N t s0
    unfold LoopState.stop
    rw [decide_eq_true_iff, hmax, hit, (hiter t).2.2, hu0, hi0, hM]
    constructor
    · rintro (h | h) <;> omega
    · intro h; left; omega
  have hmeans : ∀ t (i d : Nat), i < km.m_clusterNum → d < km.m_dimNum →
      (LoopState.iter sqrt data N t s0).km.GetMean (i : Int) d =
        data ((i : Int) * (km.m_dimNum : Int) + (d : Int)) := by
    intro t i d hi hd
    rw [(hiter t).1]
    have := hown0 i d (by rw [hKs]; exact hi) (by rw [hDs]; exact hd)
    rw [hDs] at this
    exact this
  have hlabel : ∀ t (i : Nat), i < km.m_clusterNum →
      (LoopState.iter sqrt data N t s0).km.labelOf sqrt data i = (i : Int) := by
    intro t i hi
    rw [(hiter t).1]
    unfold KMeans.labelOf
    rw [GetLabel_own sqrt hs0 hspos s0.km data hsd0 hown0 i (by rw [hKs]; exact hi) (-1)]
  have hrun : LoopState.run sqrt data N (max 1 km.m_maxIterNum).toNat s0 =
      some (LoopState.iter sqrt data N (max 1 km.m_maxIterNum).toNat s0) := by
    apply run_eq_iter sqrt data N _ s0 _ (by omega) (le_refl _)
    · rw [hstop]; omega
    · intro t' h1 h2
      have : ¬ (LoopState.iter sqrt data N t' s0).stop = true := by
        rw [hstop]; omega
      simpa using this
  refine ⟨fun t => ⟨hmeans t, hlabel t, (hiter t).2.1, ?_, hstop t⟩, hrun, ?_, ?_⟩
  · rw [(hiter t).2.2, hu0]
  · rw [(iter_config sqrt data N _ s0).2.2.2.2, hi0]; omega
  · rw [hrun] at hC
    simp only [Option.map] at hC
    refine ⟨_, _, hC, hmeans _, ?_⟩
    intro i hi
    have hKpos : 0 < (LoopState.iter sqrt data N (max 1 km.m_maxIterNum).toNat s0).km.m_clusterNum := by
      rw [(hiter _).1, hKs]; omega
    rw [emitLabels_eq sqrt _ data N _ Label hKpos]
    have hlt : i < N.toNat := by omega
    simp only [hlt, if_true]
    exact hlabel _ i hi

theorem C14_as_many_points_as_clusters_witness :
    demoSqrt 0 = 0 ∧ (∀ q, 0 < q → 0 < demoSqrt q) ∧ 16 ≤ 32 ∧ 16 ≤ 64 ∧
    (2 : Int) = (pairEngine.m_clusterNum : Int) ∧ pairEngine.smallDistinct pairData ∧
    pairEngine.m_initMode ≠ InitManual ∧
    LoopState.run demoSqrt pairData 2 (max 1 pairEngine.m_maxIterNum).toNat
        (pairEngine.loopStart 2147483647 (fun _ => 0) pairData 2) =
      some (LoopState.iter demoSqrt pairData 2 (max 1 pairEngine.m_maxIterNum).toNat
        (pairEngine.loopStart 2147483647 (fun _ => 0) pairData 2)) ∧
    (LoopState.iter demoSqrt pairData 2 (max 1 pairEngine.m_maxIterNum).toNat
      (pairEngine.loopStart 2147483647 (fun _ => 0) pairData 2)).iterNum =
        max 1 pairEngine.m_maxIterNum :=
  have h := C14_as_many_points_as_clusters demoSqrt 2147483647 (fun _ => 0) pairEngine pairData 2
    (fun _ => -1) demoSqrt_zero demoSqrt_pos (by decide) (by decide) (by decide)
    pairEngine_smallDistinct (by decide) (Or.inr (by decide))
  ⟨demoSqrt_zero, demoSqrt_pos, by decide, by decide, by decide, pairEngine_smallDistinct,
    by decide, h.2.1, h.2.2.1⟩

/-- C14, counterexample: for `D = 1`, `K = 2`, Uniform init, the defaults
`maxIter = 100` and `endError = 0.001`, and the two distinct points `[5, 9]`
(`N = K = 2`), the first iteration does not clear `loop` and leaves the
stability counter at 0, so it is not judged stable; the loop runs 100
iterations, and ends with the counter still 0, cost 0 and centroids `[5, 9]`. -/
theorem C14_runs_to_the_iteration_cap :
    (LoopState.iter demoSqrt pairData 2 1
      (pairEngine.loopStart 2147483647 (fun _ => 0) pairData 2)).stop = false ∧
    (LoopState.iter demoSqrt pairData 2 1
      (pairEngine.loopStart 2147483647 (fun _ => 0) pairData 2)).unchanged = 0 ∧
    (LoopState.run demoSqrt pairData 2 (max 1 pairEngine.m_maxIterNum).toNat
      (pairEngine.loopStart 2147483647 (fun _ => 0) pairData 2)).map
        (fun s => (s.iterNum, s.unchanged, s.currCost, s.km.GetMean 0 0, s.km.GetMean 1 0)) =
      some (100, 0, some 0, 5, 9) := by
  refine ⟨by decide!, by decide!, by decide!⟩

end alg
